import Mathlib

/-
  Verification development for the candle → feature → classifier → backtest
  pipeline of the bitget-trading-bot repository (src/ai/features.py,
  src/ai/model.py, src/ai/backtest.py).

  Modelling conventions:
  * Python floats are modelled as exact rationals (ℚ); float rounding is out
    of scope of the claims under consideration.
  * The transcendental primitives of Python's math module (math.sqrt,
    math.exp, math.log) are external library calls, not code of this
    repository; they are taken as parameters, bundled in `Prims`.
    Theorems that depend on analytic facts about them (e.g. sqrt of a
    non-negative number is non-negative, exp is positive) take those facts
    as explicit hypotheses.
  * Python list indexing `l[i]` is modelled with `List.getD` (default 0);
    at every use site relevant to the claims the index is in range.
    `l[-k]` (negative indexing) and `l[-k:]` slices are modelled by
    `fromEnd` / `lastN` / `pySliceLast` below; `l[-0:]` is the whole list,
    which `pySliceLast` reproduces.
  * Python's `max()` / `min()` over a list and `l[-1]` raise on an empty
    list; the Lean translations return a default there, and theorems about
    those code paths carry a non-emptiness hypothesis.
-/

namespace BitgetAI

/-- External numeric primitives from Python's math module. -/
structure Prims where
  sqrt : ℚ → ℚ
  exp : ℚ → ℚ
  log : ℚ → ℚ

/-- A concrete instantiation of the primitives, used to evaluate the
development on concrete inputs in witnesses. -/
def primId : Prims := ⟨fun q => q, fun q => q, fun q => q⟩

/-- A concrete instantiation of the primitives whose `exp` is the constant 1
(hence everywhere positive), used in witnesses that need `exp > 0`. -/
def primPos : Prims := ⟨fun q => q, fun _ => 1, fun q => q⟩

/-- Last `n` elements of a list, the Python slice `l[-n:]` for `n ≥ 1`. -/
def lastN {α : Type} (n : ℕ) (l : List α) : List α := l.drop (l.length - n)

/-- Python slice `l[-n:]` including the `n = 0` edge case, where `l[-0:]`
is the whole list. -/
def pySliceLast {α : Type} (n : ℕ) (l : List α) : List α :=
  if n = 0 then l else lastN n l

/-- Python `l[-k]` for `k ≥ 1`: the `k`-th element from the end. -/
def fromEnd (l : List ℚ) (k : ℕ) : ℚ := l.getD (l.length - k) 0

/-- Python `l[-1]` on a non-empty list. -/
def lastD (l : List ℚ) : ℚ := l.getLastD 0

/-- Python `max(l)` on a non-empty list of rationals. -/
def listMax (l : List ℚ) : ℚ :=
  match l with
  | [] => 0
  | x :: xs => xs.foldl max x

/-- Python `min(l)` on a non-empty list of rationals. -/
def listMin (l : List ℚ) : ℚ :=
  match l with
  | [] => 0
  | x :: xs => xs.foldl min x

/-- Consecutive differences `l[i+1] - l[i]`. -/
def diffs (l : List ℚ) : List ℚ := List.zipWith (fun a b => b - a) l l.tail

/-- features.py `_sma`. -/
def sma (values : List ℚ) (period : ℕ) : ℚ :=
  if values.length < period ∨ period ≤ 0 then
    if values = [] then 0 else values.sum / (values.length : ℚ)
  else (lastN period values).sum / (period : ℚ)

/-- features.py `_ema`. -/
def ema (values : List ℚ) (period : ℕ) : ℚ :=
  match values with
  | [] => 0
  | v0 :: rest =>
    if period ≤ 1 then lastD (v0 :: rest)
    else
      let k : ℚ := 2 / ((period : ℚ) + 1)
      rest.foldl (fun e v => v * k + e * (1 - k)) v0

/-- features.py `_rsi`. -/
def rsi (values : List ℚ) (period : ℕ) : ℚ :=
  if values.length < period + 1 then 50
  else
    let changes := diffs (lastN (period + 1) values)
    let gains := (changes.map (fun c => if 0 < c then c else 0)).sum
    let losses := (changes.map (fun c => if 0 < c then 0 else -c)).sum
    if losses = 0 then 100
    else
      let rs := (gains / (period : ℚ)) / (losses / (period : ℚ))
      100 - 100 / (1 + rs)

/-- features.py `_volatility` (math.sqrt taken from `Prims`). -/
def volatility (prim : Prims) (values : List ℚ) (period : ℕ) : ℚ :=
  let p := if values.length < period then values.length else period
  if p ≤ 1 then 0
  else
    let w := lastN p values
    let mean := w.sum / (p : ℚ)
    let var := (w.map (fun x => (x - mean) ^ 2)).sum / (p : ℚ)
    if mean = 0 then 0 else prim.sqrt var / mean

/-- One OHLCV candle (features.py candle schema; `open` is a Lean keyword,
so the field is `open_`). -/
structure Candle where
  ts : ℤ
  open_ : ℚ
  high : ℚ
  low : ℚ
  close : ℚ
  volume : ℚ

/-- features.py `compute_feature_vector`. -/
def compute_feature_vector (prim : Prims) (candles : List Candle) (window : ℕ) :
    List ℚ × List String :=
  let closes := candles.map (·.close)
  let highs := candles.map (·.high)
  let lows := candles.map (·.low)
  let volumes := candles.map (·.volume)
  let w := if closes.length < window then closes.length else window
  let recent_closes := pySliceLast w closes
  let recent_highs := pySliceLast w highs
  let recent_lows := pySliceLast w lows
  let recent_vols := pySliceLast w volumes
  let sma_10 := sma recent_closes (min 10 w)
  let sma_20 := sma recent_closes (min 20 w)
  let ema_10 := ema (pySliceLast (min 50 w) recent_closes) (min 10 w)
  let ema_20 := ema (pySliceLast (min 50 w) recent_closes) (min 20 w)
  let rsi_14 := rsi recent_closes (if 1 < w then min 14 (w - 1) else 14)
  let vol_20 := volatility prim recent_closes (min 20 w)
  let last_close := lastD recent_closes
  let rng_high := listMax recent_highs
  let rng_low := listMin recent_lows
  let pos := if rng_high = rng_low then (1 : ℚ) / 2
             else (last_close - rng_low) / (rng_high - rng_low)
  let vol_mean := if recent_vols = [] then 0 else recent_vols.sum / (recent_vols.length : ℚ)
  let vol_last := if recent_vols = [] then 0 else lastD recent_vols
  let vr := if vol_mean = 0 then 1 else vol_last / vol_mean
  let mom_1 := if 2 ≤ recent_closes.length
               then lastD recent_closes / fromEnd recent_closes 2 - 1 else 0
  let mom_5 := if 6 ≤ recent_closes.length
               then lastD recent_closes / fromEnd recent_closes (min 6 recent_closes.length) - 1
               else 0
  ([last_close, sma_10, sma_20, ema_10, ema_20, rsi_14, vol_20, pos, vr, mom_1, mom_5],
   ["last_close", "sma_10", "sma_20", "ema_10", "ema_20", "rsi_14", "vol_20", "pos",
    "vol_ratio", "mom_1", "mom_5"])

/-- features.py `build_dataset`. -/
def build_dataset (prim : Prims) (candles : List Candle) (window horizon : ℕ)
    (threshold_pct : ℚ) : List (List ℚ) × List ℕ × List String :=
  let closes := candles.map (·.close)
  let n := candles.length
  if n < window + horizon + 1 then ([], [], [])
  else
    (List.range' window (n - horizon - window)).foldl
      (fun acc i =>
        let feats := compute_feature_vector prim (candles.take i) window
        let future_ret := closes.getD (i + horizon) 0 / closes.getD i 0 - 1
        let label : ℕ := if threshold_pct / 100 ≤ future_ret then 1 else 0
        (acc.1 ++ [feats.1], acc.2.1 ++ [label], feats.2))
      ([], [], [])

/-- model.py `LogisticModel` state (scalar fields). -/
structure LogisticModel where
  weights : List ℚ
  bias : ℚ
  lr : ℚ
  l2 : ℚ
deriving DecidableEq

/-- model.py `LogisticModel._sigmoid` (clamped at ±35; math.exp from `Prims`). -/
def sigmoidClamped (prim : Prims) (z : ℚ) : ℚ :=
  if z < -35 then 0
  else if 35 < z then 1
  else 1 / (1 + prim.exp (-z))

/-- Dot product of `zip(self.weights, x)` in model.py `predict_proba_one`. -/
def dotZip (w x : List ℚ) : ℚ := (List.zipWith (· * ·) w x).sum

/-- model.py `LogisticModel.predict_proba_one`. -/
def logPredict (prim : Prims) (m : LogisticModel) (x : List ℚ) : ℚ :=
  sigmoidClamped prim (m.bias + dotZip m.weights x)

/-- The golden-ratio constant `0.6180339887498949` of the deterministic
pseudo-shuffle in model.py `LogisticModel.fit`. -/
def goldenStep : ℚ := 6180339887498949 / 10000000000000000

/-- Swap two positions of a list (the tuple swap in the pseudo-shuffle). -/
def swapList (l : List ℕ) (i j : ℕ) : List ℕ :=
  let vi := l.getD i 0
  let vj := l.getD j 0
  (l.set i vj).set j vi

/-- One epoch of the deterministic pseudo-shuffle of model.py
`LogisticModel.fit`: for `i` from `n-1` down to `1`, swap `idxs[i]` with
`idxs[int((i+1)*0.618...) % (i+1)]`. -/
def shuffleOnce (n : ℕ) (idxs : List ℕ) : List ℕ :=
  ((List.range (n - 1)).reverse.map (fun k => k + 1)).foldl
    (fun l (i : ℕ) =>
      let j := (Rat.floor ((((i + 1 : ℕ) : ℚ)) * goldenStep)).toNat % (i + 1)
      swapList l i j)
    idxs

/-- One SGD step on (weights, bias) for a single example, with L2 on the
weight gradient (inner loop of model.py `LogisticModel.fit`). -/
def sgdStep (prim : Prims) (lr l2 : ℚ) (wb : List ℚ × ℚ) (xi : List ℚ) (yi : ℕ) :
    List ℚ × ℚ :=
  let p := sigmoidClamped prim (wb.2 + dotZip wb.1 xi)
  let err := p - (yi : ℚ)
  ((List.range wb.1.length).map
     (fun k => wb.1.getD k 0 - lr * (err * xi.getD k 0 + l2 * wb.1.getD k 0)),
   wb.2 - lr * err)

/-- model.py `LogisticModel.fit`. Returns the updated model; an empty `X`
is returned unchanged (the `n == 0` guard). -/
def logFit (prim : Prims) (m : LogisticModel) (X : List (List ℚ)) (y : List ℕ)
    (epochs : ℕ) (shuffle : Bool) : LogisticModel :=
  let n := X.length
  if n = 0 then m
  else
    let res := (List.range epochs).foldl
      (fun (acc : List ℕ × List ℚ × ℚ) _ =>
        let idxs := if shuffle then shuffleOnce n acc.1 else acc.1
        let wb := idxs.foldl
          (fun wb i => sgdStep prim m.lr m.l2 wb (X.getD i []) (y.getD i 0))
          (acc.2.1, acc.2.2)
        (idxs, wb.1, wb.2))
      (List.range n, m.weights, m.bias)
    { m with weights := res.2.1, bias := res.2.2 }

/-- model.py `DecisionStump` (scalar fields). -/
structure Stump where
  feature_idx : ℕ
  threshold : ℚ
  polarity : ℤ
  alpha : ℚ
deriving DecidableEq

/-- model.py `DecisionStump.predict`. -/
def stumpPredict (s : Stump) (x : List ℚ) : ℤ :=
  let pred : ℤ := if s.threshold ≤ x.getD s.feature_idx 0 then 1 else -1
  if s.polarity = 1 then pred else -pred

/-- model.py `AdaBoostStumps` state. -/
structure AdaModel where
  n_rounds : ℕ
  stumps : List Stump
deriving DecidableEq

/-- model.py `AdaBoostStumps.decision_function`. -/
def decisionFunction (a : AdaModel) (x : List ℚ) : ℚ :=
  (a.stumps.map (fun s => s.alpha * ((stumpPredict s x : ℤ) : ℚ))).sum

/-- model.py `AdaBoostStumps.predict_proba_one` (unclamped logistic squash). -/
def adaPredict (prim : Prims) (a : AdaModel) (x : List ℚ) : ℚ :=
  1 / (1 + prim.exp (-(decisionFunction a x)))

/-- Helper for the Python slice `l[::step]`: `k` counts the elements still
to skip before the next kept element. -/
def everyNthAux (step : ℕ) : ℕ → List ℚ → List ℚ
  | _, [] => []
  | 0, x :: xs => x :: everyNthAux step (step - 1) xs
  | k + 1, _ :: xs => everyNthAux step k xs

/-- Every `step`-th element of a list, the Python slice `l[::step]` for
`step ≥ 1`: the elements at indices `0, step, 2·step, …`. -/
def everyNth (step : ℕ) (l : List ℚ) : List ℚ := everyNthAux step 0 l

/-- Candidate thresholds for one feature in model.py `AdaBoostStumps.fit`:
`sorted(set(vals))`, then `[::max(1, len 50)]` when more than 50 remain. -/
def candidateThresholds (vals : List ℚ) : List ℚ :=
  let unique_vals := List.insertionSort (· ≤ ·) vals.dedup
  if 50 < unique_vals.length then
    everyNth (max 1 (unique_vals.length / 50)) unique_vals
  else unique_vals

/-- Weighted classification error of one candidate stump
(inner loops of model.py `AdaBoostStumps.fit`). -/
def weightedErr (X : List (List ℚ)) (y2 : List ℤ) (w : List ℚ)
    (fi : ℕ) (thr : ℚ) (pol : ℤ) : ℚ :=
  ((List.range X.length).map (fun i =>
    let row := X.getD i []
    let pred : ℤ := if thr ≤ row.getD fi 0 then 1 else -1
    let pred := if pol = -1 then -pred else pred
    if pred ≠ y2.getD i 1 then w.getD i 0 else 0)).sum

/-- The stump search of one AdaBoost round: every feature index, every
candidate threshold, both polarities (+1 before -1), keeping the strictly
smallest weighted error (first-found wins ties, matching `err < best_err`
against an initial `inf`). Returns `none` when there are no candidates. -/
def findBestStump (X : List (List ℚ)) (y2 : List ℤ) (w : List ℚ) :
    Option (Stump × ℚ) :=
  let m := (X.headD []).length
  ((List.range m).flatMap (fun fi =>
    (candidateThresholds (X.map (fun row => row.getD fi 0))).flatMap (fun thr =>
      [(fi, thr, (1 : ℤ)), (fi, thr, (-1 : ℤ))]))).foldl
    (fun best c =>
      let err := weightedErr X y2 w c.1 c.2.1 c.2.2
      match best with
      | none => some (⟨c.1, c.2.1, c.2.2, 0⟩, err)
      | some be => if err < be.2 then some (⟨c.1, c.2.1, c.2.2, 0⟩, err) else some be)
    none

/-- The error clamp of model.py `AdaBoostStumps.fit`:
`max(1e-9, min(0.499999, best_err))`. -/
def clampErr (e : ℚ) : ℚ := max (1 / 1000000000) (min (499999 / 1000000) e)

/-- The round loop of model.py `AdaBoostStumps.fit`. State is the example
weight vector and the stump list built so far; `none` from the stump search
models the `break`. -/
def adaRounds (prim : Prims) (X : List (List ℚ)) (y2 : List ℤ) :
    ℕ → List ℚ × List Stump → List ℚ × List Stump
  | 0, st => st
  | k + 1, (w, stumps) =>
    match findBestStump X y2 w with
    | none => (w, stumps)
    | some be =>
      let err := clampErr be.2
      let alpha := (1 / 2 : ℚ) * prim.log ((1 - err) / err)
      let stump : Stump := { be.1 with alpha := alpha }
      let w1 := (List.range X.length).map (fun i =>
        w.getD i 0 *
          prim.exp (-alpha * ((y2.getD i 1 : ℤ) : ℚ) * ((stumpPredict stump (X.getD i []) : ℤ) : ℚ)))
      let Z := w1.sum
      let w2 := if 0 < Z then w1.map (· / Z) else w1
      adaRounds prim X y2 k (w2, stumps ++ [stump])

/-- model.py `AdaBoostStumps.fit`. An empty `X` is returned unchanged
(the `n == 0` guard precedes the `self.stumps = []` reset). -/
def adaFit (prim : Prims) (model : AdaModel) (X : List (List ℚ)) (y : List ℕ) :
    AdaModel :=
  let y2 : List ℤ := y.map (fun v => if v = 1 then 1 else -1)
  let n := X.length
  if n = 0 then model
  else
    let w0 : List ℚ := List.replicate n (1 / (n : ℚ))
    { model with stumps := (adaRounds prim X y2 model.n_rounds (w0, [])).2 }

/-- A JSON value, the parse result of `json.loads` on a serialized model
record. Only the shapes relevant to the model store are interpreted. -/
inductive Json where
  | null
  | bool (b : Bool)
  | num (q : ℚ)
  | str (s : String)
  | arr (elems : List Json)
  | obj (fields : List (String × Json))

/-- Dictionary lookup on a parsed JSON object. -/
def lookupField (fields : List (String × Json)) (k : String) : Option Json :=
  (fields.find? (fun p => p.1 == k)).map (·.2)

/-- Read a JSON number. -/
def getNum? : Json → Option ℚ
  | Json.num q => some q
  | _ => none

/-- Read each element of a JSON array as a number, failing on the first
non-number (an error aborts the whole read). -/
def readNums : List Json → Option (List ℚ)
  | [] => some []
  | j :: rest =>
    match getNum? j with
    | none => none
    | some q =>
      match readNums rest with
      | none => none
      | some qs => some (q :: qs)

/-- Read a JSON array of numbers. -/
def getNums? : Json → Option (List ℚ)
  | Json.arr l => readNums l
  | _ => none

/-- Read a JSON number that denotes a non-negative integer. -/
def getNat? : Json → Option ℕ
  | Json.num q => if q.den = 1 ∧ 0 ≤ q.num then some q.num.toNat else none
  | _ => none

/-- Read a JSON number that denotes an integer. -/
def getInt? : Json → Option ℤ
  | Json.num q => if q.den = 1 then some q.num else none
  | _ => none

/-- model.py `LogisticModel.to_json` (the parsed form of the record). -/
def logToJson (m : LogisticModel) : Json :=
  Json.obj [("type", Json.str "logistic"),
            ("weights", Json.arr (m.weights.map Json.num)),
            ("bias", Json.num m.bias),
            ("lr", Json.num m.lr),
            ("l2", Json.num m.l2)]

/-- model.py `LogisticModel.from_json`. Missing `weights` or `bias` is an
error (Python `KeyError`); `lr` / `l2` default to 0.05 / 1e-4. -/
def logFromJson (j : Json) : Except String LogisticModel :=
  match j with
  | Json.obj fields =>
    match lookupField fields "weights" with
    | none => Except.error "missing weights"
    | some wj =>
      match getNums? wj with
      | none => Except.error "malformed weights"
      | some ws =>
        match lookupField fields "bias" with
        | none => Except.error "missing bias"
        | some bj =>
          match getNum? bj with
          | none => Except.error "malformed bias"
          | some b =>
            let lrv := match lookupField fields "lr" with
              | none => some ((1 : ℚ) / 20)
              | some v => getNum? v
            let l2v := match lookupField fields "l2" with
              | none => some ((1 : ℚ) / 10000)
              | some v => getNum? v
            match lrv, l2v with
            | some lr, some l2 => Except.ok ⟨ws, b, lr, l2⟩
            | _, _ => Except.error "malformed hyperparameters"
  | _ => Except.error "not an object"

/-- model.py `DecisionStump.to_dict`. -/
def stumpToDict (s : Stump) : Json :=
  Json.obj [("feature_idx", Json.num (s.feature_idx : ℚ)),
            ("threshold", Json.num s.threshold),
            ("polarity", Json.num ((s.polarity : ℤ) : ℚ)),
            ("alpha", Json.num s.alpha)]

/-- model.py `DecisionStump.from_dict`. `feature_idx`, `threshold` and
`polarity` are required (Python `KeyError` when absent); `alpha` defaults
to 0. -/
def stumpFromDict (j : Json) : Except String Stump :=
  match j with
  | Json.obj f =>
    match lookupField f "feature_idx" with
    | none => Except.error "missing feature_idx"
    | some fij =>
      match getNat? fij with
      | none => Except.error "malformed feature_idx"
      | some fi =>
        match lookupField f "threshold" with
        | none => Except.error "missing threshold"
        | some tj =>
          match getNum? tj with
          | none => Except.error "malformed threshold"
          | some thr =>
            match lookupField f "polarity" with
            | none => Except.error "missing polarity"
            | some pj =>
              match getInt? pj with
              | none => Except.error "malformed polarity"
              | some pol =>
                match lookupField f "alpha" with
                | none => Except.ok ⟨fi, thr, pol, 0⟩
                | some aj =>
                  match getNum? aj with
                  | none => Except.error "malformed alpha"
                  | some al => Except.ok ⟨fi, thr, pol, al⟩
  | _ => Except.error "stump record is not an object"

/-- Read each element of a JSON array as a stump record, failing on the
first malformed one (the list comprehension of `from_json`: a raised error
aborts the whole read, so no partially recovered stump list exists). -/
def readStumps : List Json → Except String (List Stump)
  | [] => Except.ok []
  | j :: rest =>
    match stumpFromDict j with
    | Except.error e => Except.error e
    | Except.ok s =>
      match readStumps rest with
      | Except.error e => Except.error e
      | Except.ok ss => Except.ok (s :: ss)

/-- model.py `AdaBoostStumps.to_json` (the parsed form of the record). -/
def adaToJson (a : AdaModel) : Json :=
  Json.obj [("type", Json.str "adaboost_stumps"),
            ("n_rounds", Json.num (a.n_rounds : ℚ)),
            ("stumps", Json.arr (a.stumps.map stumpToDict))]

/-- model.py `AdaBoostStumps.from_json`. `n_rounds` defaults to 50 and the
stump list itself defaults to `[]` when absent (`obj.get("stumps", [])`);
each listed stump must parse. -/
def adaFromJson (j : Json) : Except String AdaModel :=
  match j with
  | Json.obj fields =>
    match lookupField fields "n_rounds" with
    | none =>
      match lookupField fields "stumps" with
      | none => Except.ok ⟨50, []⟩
      | some (Json.arr l) =>
        (readStumps l).map (fun ss => (⟨50, ss⟩ : AdaModel))
      | some _ => Except.error "malformed stumps"
    | some nj =>
      match getNat? nj with
      | none => Except.error "malformed n_rounds"
      | some nr =>
        match lookupField fields "stumps" with
        | none => Except.ok ⟨nr, []⟩
        | some (Json.arr l) =>
          (readStumps l).map (fun ss => (⟨nr, ss⟩ : AdaModel))
        | some _ => Except.error "malformed stumps"
  | _ => Except.error "not an object"

/-- Whether deserialization succeeded. -/
def exceptOk {α : Type} : Except String α → Bool
  | Except.ok _ => true
  | Except.error _ => false

/-- Whether a JSON value is an object. -/
def isObj : Json → Bool
  | Json.obj _ => true
  | _ => false

/-- A stump record that lacks one of the required keys `feature_idx`,
`threshold`, `polarity` (or is not an object at all). -/
def stumpIncomplete : Json → Bool
  | Json.obj f =>
    (lookupField f "feature_idx").isNone || (lookupField f "threshold").isNone ||
      (lookupField f "polarity").isNone
  | _ => true

/-- Parameters of backtest.py `_simulate_pnl` (after the predictions and
closes). -/
structure SimParams where
  horizon : ℕ
  threshold : ℚ
  risk_per_trade : ℚ
  leverage : ℚ
  starting_balance : ℚ
  risk_mode : String
  fee_bps : ℚ
  slippage_bps : ℚ
  dd_stop_pct : Option ℚ
  max_trades : Option ℕ

/-- The running state of the `_simulate_pnl` loop: the local variables of
backtest.py lines 11-21. `best` / `worst` are `none` until the first trade,
standing for the `float('-inf')` / `float('inf')` sentinels. -/
structure SimState where
  equity : ℚ
  curve : List ℚ
  pnls : List ℚ
  trades : ℕ
  wins : ℕ
  best : Option ℚ
  worst : Option ℚ
  peak : ℚ
  max_dd_abs : ℚ
  max_dd_pct : ℚ
deriving DecidableEq

/-- Initial simulator state for a given starting balance. -/
def initState (sb : ℚ) : SimState :=
  ⟨sb, [sb], [], 0, 0, none, none, sb, 0, 0⟩

/-- The running drawdown percent (as a fraction) of a simulator state:
`(peak - equity)/peak`, 0 when the peak is not positive. In `_simulate_pnl`
this is the `dd_pct` computed right after a trade, since `peak` and
`equity` are exactly the updated values. -/
def ddPct (st : SimState) : ℚ :=
  if 0 < st.peak then (st.peak - st.equity) / st.peak else 0

/-- The body of one executed trade in backtest.py `_simulate_pnl`
(lines 34-68): slippage-adjusted entry/exit, stake, fees, P&L, equity,
win/best/worst bookkeeping and drawdown tracking. -/
def tradeStep (P : SimParams) (closes : List ℚ) (i : ℕ) (st : SimState) : SimState :=
  let fee_rate := P.fee_bps / 10000
  let slip_rate := P.slippage_bps / 10000
  let entry := closes.getD i 0
  let exitp := closes.getD (i + P.horizon) 0
  let entry_eff := entry * (1 + slip_rate)
  let exit_eff := exitp * (1 - slip_rate)
  let ret := exit_eff / entry_eff - 1
  let risk_usd := if P.risk_mode = "pct" then st.equity * (P.risk_per_trade / 100)
                  else P.risk_per_trade
  let stake_usd := risk_usd * P.leverage
  let fees := stake_usd * fee_rate * 2
  let trade_pnl := stake_usd * ret - fees
  let equity := st.equity + trade_pnl
  let peak := max st.peak equity
  let dd_abs := peak - equity
  let dd_pct := if 0 < peak then dd_abs / peak else 0
  { equity := equity
    curve := st.curve ++ [equity]
    pnls := st.pnls ++ [trade_pnl]
    trades := st.trades + 1
    wins := st.wins + (if 0 < trade_pnl then 1 else 0)
    best := some (match st.best with | none => trade_pnl | some b => max b trade_pnl)
    worst := some (match st.worst with | none => trade_pnl | some w => min w trade_pnl)
    peak := peak
    max_dd_abs := max st.max_dd_abs dd_abs
    max_dd_pct := max st.max_dd_pct dd_pct }

/-- The main loop of backtest.py `_simulate_pnl`: skip predictions below
the threshold, stop at the trade cap or when the horizon runs past the
price series, execute a trade otherwise, and stop after a trade whose
drawdown percent reaches the configured stop. -/
def simLoop (P : SimParams) (closes : List ℚ) : List ℚ → ℕ → SimState → SimState
  | [], _, st => st
  | p :: rest, i, st =>
    if p < P.threshold then simLoop P closes rest (i + 1) st
    else if (match P.max_trades with | some mt => decide (mt ≤ st.trades) | none => false) then st
    else if closes.length ≤ i + P.horizon then st
    else
      let st' := tradeStep P closes i st
      match P.dd_stop_pct with
      | some s => if s ≤ ddPct st' * 100 then st' else simLoop P closes rest (i + 1) st'
      | none => simLoop P closes rest (i + 1) st'

/-- The metrics record returned by backtest.py `_simulate_pnl`. -/
structure SimResult where
  trades : ℕ
  win_rate : ℚ
  total_pnl : ℚ
  final_equity : ℚ
  return_pct : ℚ
  max_drawdown : ℚ
  max_drawdown_pct : ℚ
  best_trade : ℚ
  worst_trade : ℚ
  sharpe_like : ℚ
deriving DecidableEq

/-- backtest.py `_simulate_pnl`: run the loop and assemble the metrics
record (win rate, mean/population-stdev Sharpe-like score, drawdowns). -/
def simulate (prim : Prims) (preds closes : List ℚ) (P : SimParams) : SimResult :=
  let st := simLoop P closes preds 0 (initState P.starting_balance)
  let win_rate := if 0 < st.trades then (st.wins : ℚ) / (st.trades : ℚ) else 0
  let avg := if st.pnls = [] then 0 else st.pnls.sum / (st.pnls.length : ℚ)
  let std := if 1 < st.pnls.length
             then prim.sqrt ((st.pnls.map (fun x => (x - avg) ^ 2)).sum / (st.pnls.length : ℚ))
             else 0
  let sharpe := if 0 < std then avg / std * prim.sqrt (st.trades : ℚ) else 0
  { trades := st.trades
    win_rate := win_rate
    total_pnl := st.equity - P.starting_balance
    final_equity := st.equity
    return_pct := if 0 < P.starting_balance
                  then (st.equity / P.starting_balance - 1) * 100 else 0
    max_drawdown := st.max_dd_abs
    max_drawdown_pct := st.max_dd_pct * 100
    best_trade := if 0 < st.trades then st.best.getD 0 else 0
    worst_trade := if 0 < st.trades then st.worst.getD 0 else 0
    sharpe_like := sharpe }

/-- Observable trade trace of the simulator when the drawdown stop does not
intervene: the post-trade states of `simLoop`, in order, following exactly
the same skip/stop conditions. Used to state where a configured drawdown
stop truncates the run. -/
def tradeStates (P : SimParams) (closes : List ℚ) : List ℚ → ℕ → SimState → List SimState
  | [], _, _ => []
  | p :: rest, i, st =>
    if p < P.threshold then tradeStates P closes rest (i + 1) st
    else if (match P.max_trades with | some mt => decide (mt ≤ st.trades) | none => false) then []
    else if closes.length ≤ i + P.horizon then []
    else
      let st' := tradeStep P closes i st
      st' :: tradeStates P closes rest (i + 1) st'

/-- One row of the grid-search result list in backtest.py `backtest_grid`:
the (threshold, risk) pair, the execution parameters, and the full metrics. -/
structure GridRec where
  threshold : ℚ
  risk_per_trade : ℚ
  risk_mode : String
  fee_bps : ℚ
  slippage_bps : ℚ
  metrics : SimResult
deriving DecidableEq

/-- The grid-search loop of backtest.py `backtest_grid` (lines 129-144):
thresholds outer, risks inner; every pair is simulated and recorded; `best`
is replaced only on a strictly greater Sharpe-like score. -/
def gridSearch (prim : Prims) (proba closes_test : List ℚ) (horizon : ℕ)
    (score_grid risk_grid : List ℚ) (leverage starting_balance : ℚ)
    (risk_mode : String) (fee_bps slippage_bps : ℚ) (dd_stop_pct : Option ℚ)
    (max_trades : Option ℕ) : Option GridRec × List GridRec :=
  (score_grid.flatMap (fun thr => risk_grid.map (fun risk => (thr, risk)))).foldl
    (fun acc pr =>
      let metrics := simulate prim proba closes_test
        ⟨horizon, pr.1, pr.2, leverage, starting_balance, risk_mode, fee_bps,
         slippage_bps, dd_stop_pct, max_trades⟩
      let record : GridRec := ⟨pr.1, pr.2, risk_mode, fee_bps, slippage_bps, metrics⟩
      let best := match acc.1 with
        | none => some record
        | some b => if b.metrics.sharpe_like < record.metrics.sharpe_like
                    then some record else some b
      (best, acc.2 ++ [record]))
    (none, [])

/-- backtest.py `backtest_grid`: fetch candles per symbol (the exchange
client is an external collaborator, passed as a function), build the
combined dataset, 70/30 chronological split, train AdaBoost (60 rounds),
predict on the test split, and run the grid search. An empty combined
dataset is the `RuntimeError`. -/
def backtest_grid (prim : Prims) (get_candles : String → String → ℕ → List Candle)
    (symbols : List String) (granularity : String) (window horizon : ℕ)
    (threshold_pct : ℚ) (score_grid risk_grid : Option (List ℚ))
    (leverage starting_balance : ℚ) (risk_mode : String) (fee_bps slippage_bps : ℚ)
    (dd_stop_pct : Option ℚ) (max_trades : Option ℕ) :
    Except String (Option GridRec × List GridRec) :=
  let sg := score_grid.getD [1/2, 3/5, 7/10, 4/5]
  let rg := risk_grid.getD [2, 4, 6, 8, 10]
  let data := symbols.foldl
    (fun (acc : List (List ℚ) × List ℕ × List ℚ) sym =>
      let candles := get_candles sym granularity (max 2000 (window + horizon + 200))
      let ds := build_dataset prim candles window horizon threshold_pct
      let closes := ((candles.map (·.close)).take (candles.length - horizon)).drop window
      let m := min ds.1.length closes.length
      (acc.1 ++ ds.1.take m, acc.2.1 ++ ds.2.1.take m, acc.2.2 ++ closes.take m))
    ([], [], [])
  if data.1 = [] then Except.error "No backtest data constructed."
  else
    let split := (Rat.floor ((7 / 10 : ℚ) * (data.1.length : ℚ))).toNat
    let model := adaFit prim ⟨60, []⟩ (data.1.take split) (data.2.1.take split)
    let proba := (data.1.drop split).map (fun x => adaPredict prim model x)
    Except.ok (gridSearch prim proba (data.2.2.drop split) horizon sg rg leverage
      starting_balance risk_mode fee_bps slippage_bps dd_stop_pct max_trades)

/-! Helper lemmas and claim theorems. -/

/-- Unrolling the accumulator of the `build_dataset` loop: the feature and
label components are the initial accumulators extended by one map each. -/
theorem bd_foldl_spec (prim : Prims) (candles : List Candle) (W H : ℕ) (t : ℚ)
    (l : List ℕ) : ∀ (X0 : List (List ℚ)) (y0 : List ℕ) (nm0 : List String),
    ((l.foldl (fun acc i =>
        let feats := compute_feature_vector prim (candles.take i) W
        let future_ret := (candles.map (·.close)).getD (i + H) 0 /
          (candles.map (·.close)).getD i 0 - 1
        let label : ℕ := if t / 100 ≤ future_ret then 1 else 0
        (acc.1 ++ [feats.1], acc.2.1 ++ [label], feats.2)) (X0, y0, nm0)).1 =
      X0 ++ l.map (fun i => (compute_feature_vector prim (candles.take i) W).1))
    ∧ ((l.foldl (fun acc i =>
        let feats := compute_feature_vector prim (candles.take i) W
        let future_ret := (candles.map (·.close)).getD (i + H) 0 /
          (candles.map (·.close)).getD i 0 - 1
        let label : ℕ := if t / 100 ≤ future_ret then 1 else 0
        (acc.1 ++ [feats.1], acc.2.1 ++ [label], feats.2)) (X0, y0, nm0)).2.1 =
      y0 ++ l.map (fun i => if t / 100 ≤ (candles.map (·.close)).getD (i + H) 0 /
        (candles.map (·.close)).getD i 0 - 1 then (1 : ℕ) else 0)) := by
  induction l with
  | nil => intro X0 y0 nm0; simp
  | cons a l ih =>
    intro X0 y0 nm0
    simp only [List.foldl_cons, List.map_cons]
    constructor
    · rw [(ih _ _ _).1]; simp
    · rw [(ih _ _ _).2]; simp

/-- C1: `build_dataset` produces exactly one (feature vector, label) pair
per index `i` from `window` to `length - horizon - 1` inclusive (empty when
`length < window + horizon + 1`), the features coming from
`candles[0:i]` and the label from
`close[i+horizon]/close[i] - 1 ≥ threshold_pct/100`; in particular
`len(X) = len(y)` always. -/
theorem c1_build_dataset (prim : Prims) (candles : List Candle) (W H : ℕ) (t : ℚ) :
    (build_dataset prim candles W H t).1 =
      (List.range' W (candles.length - H - W)).map
        (fun i => (compute_feature_vector prim (candles.take i) W).1)
    ∧ (build_dataset prim candles W H t).2.1 =
      (List.range' W (candles.length - H - W)).map
        (fun i => if t / 100 ≤ (candles.map (·.close)).getD (i + H) 0 /
          (candles.map (·.close)).getD i 0 - 1 then (1 : ℕ) else 0)
    ∧ (build_dataset prim candles W H t).1.length =
      (build_dataset prim candles W H t).2.1.length := by
  unfold build_dataset
  by_cases h : candles.length < W + H + 1
  · have hz : candles.length - H - W = 0 := by omega
    simp [h, hz]
  · have h1 := (bd_foldl_spec prim candles W H t
      (List.range' W (candles.length - H - W)) [] [] []).1
    have h2 := (bd_foldl_spec prim candles W H t
      (List.range' W (candles.length - H - W)) [] [] []).2
    simp only [if_neg h]
    refine ⟨?_, ?_, ?_⟩
    · simpa using h1
    · simpa using h2
    · rw [h1, h2]
      simp

/-- C2: for a run with a single eligible trade at index 0 (probability at
or above the threshold, horizon inside the price series, fixed-USD risk
mode, no trade cap), the simulator books entry `close[0]·(1+slip)`, exit
`close[horizon]·(1-slip)`, stake `risk·leverage`, fees `stake·fee_rate·2`,
and P&L `stake·(exit/entry - 1) - fees`, updating equity immediately:
final equity is `starting_balance + P&L`, and the win rate is 1 for a
positive P&L. -/
theorem c2_single_trade (prim : Prims) (p thr risk lev SB fee slip : ℚ)
    (closes : List ℚ) (H : ℕ) (mode : String) (dd : Option ℚ)
    (hp : thr ≤ p) (hH : H < closes.length) (hm : mode ≠ "pct") :
    (simulate prim [p] closes ⟨H, thr, risk, lev, SB, mode, fee, slip, dd, none⟩).trades = 1
    ∧ (simulate prim [p] closes ⟨H, thr, risk, lev, SB, mode, fee, slip, dd, none⟩).final_equity
      = SB + (risk * lev * (closes.getD H 0 * (1 - slip / 10000) /
          (closes.getD 0 0 * (1 + slip / 10000)) - 1) - risk * lev * (fee / 10000) * 2)
    ∧ (simulate prim [p] closes ⟨H, thr, risk, lev, SB, mode, fee, slip, dd, none⟩).total_pnl
      = risk * lev * (closes.getD H 0 * (1 - slip / 10000) /
          (closes.getD 0 0 * (1 + slip / 10000)) - 1) - risk * lev * (fee / 10000) * 2
    ∧ (simulate prim [p] closes ⟨H, thr, risk, lev, SB, mode, fee, slip, dd, none⟩).win_rate
      = (if 0 < risk * lev * (closes.getD H 0 * (1 - slip / 10000) /
          (closes.getD 0 0 * (1 + slip / 10000)) - 1) - risk * lev * (fee / 10000) * 2
         then (1 : ℚ) else 0)
    ∧ (simulate prim [p] closes ⟨H, thr, risk, lev, SB, mode, fee, slip, dd, none⟩).best_trade
      = risk * lev * (closes.getD H 0 * (1 - slip / 10000) /
          (closes.getD 0 0 * (1 + slip / 10000)) - 1) - risk * lev * (fee / 10000) * 2 := by
  have hnp : ¬ (p < thr) := not_lt.mpr hp
  have hhor : ¬ (closes.length ≤ H) := by omega
  have hloop : simLoop ⟨H, thr, risk, lev, SB, mode, fee, slip, dd, none⟩ closes [p] 0
      (initState SB)
      = tradeStep ⟨H, thr, risk, lev, SB, mode, fee, slip, dd, none⟩ closes 0
        (initState SB) := by
    cases dd with
    | none => simp [simLoop, hnp, hhor]
    | some s => simp [simLoop, hnp, hhor, ite_self]
  simp only [simulate, hloop]
  simp only [tradeStep, initState, if_neg hm, Nat.zero_add]
  refine ⟨trivial, trivial, ?_, ?_, ?_⟩
  · exact add_sub_cancel_left SB _
  · norm_num
  · norm_num

/-- C2 witness: the end-to-end scenario — entry 100, exit 110, horizon 1,
risk 10 USD, leverage 1, zero fees and slippage — yields trade P&L exactly
1, final equity `starting_balance + 1 = 1001`, and win rate 1. -/
theorem c2_single_trade_witness :
    (simulate primId [1] [100, 110] ⟨1, 1/2, 10, 1, 1000, "usd", 0, 0, none, none⟩).trades = 1
    ∧ (simulate primId [1] [100, 110]
        ⟨1, 1/2, 10, 1, 1000, "usd", 0, 0, none, none⟩).final_equity = 1001
    ∧ (simulate primId [1] [100, 110]
        ⟨1, 1/2, 10, 1, 1000, "usd", 0, 0, none, none⟩).total_pnl = 1
    ∧ (simulate primId [1] [100, 110]
        ⟨1, 1/2, 10, 1, 1000, "usd", 0, 0, none, none⟩).win_rate = 1 := by
  have h := c2_single_trade primId 1 (1/2) 10 1 1000 0 0 [100, 110] 1 "usd" none
    (by norm_num) (by norm_num) (by simp)
  refine ⟨h.1, ?_, ?_, ?_⟩
  · rw [h.2.1]; norm_num
  · rw [h.2.2.1]; norm_num
  · rw [h.2.2.2.1]; norm_num

/-- Reading back a serialized list of numbers recovers the list. -/
theorem getNums?_map_num (l : List ℚ) : getNums? (Json.arr (l.map Json.num)) = some l := by
  show readNums (l.map Json.num) = some l
  induction l with
  | nil => rfl
  | cons a l ih => simp [readNums, getNum?, ih]

/-- Reading back a serialized natural number recovers it. -/
theorem getNat?_natCast (n : ℕ) : getNat? (Json.num (n : ℚ)) = some n := by
  simp [getNat?]

/-- Reading back a serialized integer recovers it. -/
theorem getInt?_intCast (p : ℤ) : getInt? (Json.num (p : ℚ)) = some p := by
  simp [getInt?]

/-- Round trip of a single stump record. -/
theorem stump_roundtrip (s : Stump) : stumpFromDict (stumpToDict s) = Except.ok s := by
  obtain ⟨fi, thr, pol, al⟩ := s
  simp [stumpToDict, stumpFromDict, lookupField, getNat?, getNum?, getInt?]

/-- Round trip of a serialized stump list. -/
theorem stumps_roundtrip (l : List Stump) :
    readStumps (l.map stumpToDict) = Except.ok l := by
  induction l with
  | nil => rfl
  | cons s l ih => simp [readStumps, stump_roundtrip, ih]

/-- C3: deserializing a serialized model reproduces identical scalar fields
for both variants (weights, bias, lr, l2; n_rounds and each stump's
feature_idx, threshold, polarity, alpha), hence identical `predict_proba`
output on every feature vector. -/
theorem c3_model_roundtrip :
    (∀ m : LogisticModel, logFromJson (logToJson m) = Except.ok m)
    ∧ (∀ a : AdaModel, adaFromJson (adaToJson a) = Except.ok a)
    ∧ (∀ (prim : Prims) (m : LogisticModel) (x : List ℚ),
        (logFromJson (logToJson m)).map (fun r => logPredict prim r x)
          = Except.ok (logPredict prim m x))
    ∧ (∀ (prim : Prims) (a : AdaModel) (x : List ℚ),
        (adaFromJson (adaToJson a)).map (fun r => adaPredict prim r x)
          = Except.ok (adaPredict prim a x)) := by
  have hlog : ∀ m : LogisticModel, logFromJson (logToJson m) = Except.ok m := by
    intro m
    obtain ⟨ws, b, lr, l2⟩ := m
    simp [logToJson, logFromJson, lookupField, getNum?, getNums?_map_num]
  have hada : ∀ a : AdaModel, adaFromJson (adaToJson a) = Except.ok a := by
    intro a
    obtain ⟨nr, ss⟩ := a
    simp [adaToJson, adaFromJson, lookupField, getNat?_natCast, stumps_roundtrip, Except.map]
  refine ⟨hlog, hada, ?_, ?_⟩
  · intro prim m x; rw [hlog m]; rfl
  · intro prim a x; rw [hada a]; rfl

/-- C10: `fit` on an empty example list is a no-op for both variants; the
linear model keeps weights, bias, lr, l2 and the boosted model keeps its
stump ensemble (the `n == 0` guard returns before `self.stumps = []`), so
`predict_proba` is unchanged on every input. -/
theorem c10_fit_empty_noop :
    (∀ (prim : Prims) (m : LogisticModel) (y : List ℕ) (epochs : ℕ) (sh : Bool),
      logFit prim m [] y epochs sh = m)
    ∧ (∀ (prim : Prims) (a : AdaModel) (y : List ℕ), adaFit prim a [] y = a)
    ∧ (∀ (prim : Prims) (m : LogisticModel) (y : List ℕ) (epochs : ℕ) (sh : Bool)
        (x : List ℚ), logPredict prim (logFit prim m [] y epochs sh) x = logPredict prim m x)
    ∧ (∀ (prim : Prims) (a : AdaModel) (y : List ℕ) (x : List ℚ),
        adaPredict prim (adaFit prim a [] y) x = adaPredict prim a x) := by
  refine ⟨fun _ _ _ _ _ => rfl, fun _ _ _ => rfl, ?_, ?_⟩
  · intro prim m y epochs sh x; rfl
  · intro prim a y x; rfl

/-- Every element of `l[::step]` is an element of `l`. -/
theorem everyNthAux_subset (s : ℕ) :
    ∀ (l : List ℚ) (k : ℕ), ∀ x ∈ everyNthAux s k l, x ∈ l := by
  intro l
  induction l with
  | nil => intro k x hx; simp [everyNthAux] at hx
  | cons y ys ih =>
    intro k x hx
    cases k with
    | zero =>
      rw [everyNthAux] at hx
      rcases List.mem_cons.mp hx with h | h
      · simp [h]
      · exact List.mem_cons_of_mem y (ih _ x h)
    | succ k =>
      rw [everyNthAux] at hx
      exact List.mem_cons_of_mem y (ih _ x hx)

/-- Every element of `l[::step]` is an element of `l`. -/
theorem everyNth_subset (s : ℕ) (l : List ℚ) : ∀ x ∈ everyNth s l, x ∈ l :=
  everyNthAux_subset s l 0

/-- Length bound for the slice helper: with `k ≤ step - 1` pending skips,
`step · len ≤ len(l) + (step - 1) - k`. -/
theorem everyNthAux_mul_length_le (s : ℕ) (hs : 1 ≤ s) :
    ∀ (l : List ℚ) (k : ℕ), k ≤ s - 1 →
      s * (everyNthAux s k l).length ≤ l.length + (s - 1) - k := by
  intro l
  induction l with
  | nil => intro k hk; simp [everyNthAux]
  | cons y ys ih =>
    intro k hk
    cases k with
    | zero =>
      rw [everyNthAux]
      simp only [List.length_cons]
      have hih := ih (s - 1) (by omega)
      have hexp : s * ((everyNthAux s (s - 1) ys).length + 1)
          = s * (everyNthAux s (s - 1) ys).length + s := by ring
      rw [hexp]
      generalize hA : s * (everyNthAux s (s - 1) ys).length = A at hih ⊢
      omega
    | succ k =>
      rw [everyNthAux]
      simp only [List.length_cons]
      have hih := ih k (by omega)
      generalize hA : s * (everyNthAux s k ys).length = A at hih ⊢
      omega

/-- Length bound for `l[::step]`: `step · len(l[::step]) ≤ len(l) + step - 1`
(the slice has `⌈len(l)/step⌉` elements). -/
theorem everyNth_mul_length_le (s : ℕ) (hs : 1 ≤ s) (l : List ℚ) :
    s * (everyNth s l).length ≤ l.length + (s - 1) := by
  have := everyNthAux_mul_length_le s hs l 0 (by omega)
  simpa [everyNth] using this

/-- C4 counterexample: a feature column with 51 distinct observed values.
`len(unique_vals) = 51 > 50` counts as large cardinality, yet the stride is
`max(1, 51 // 50) = 1`, so all 51 candidates are kept — more than 50. -/
theorem c4_counterexample :
    ((List.range 51).map (fun i => (i : ℚ))).dedup.length = 51
    ∧ 50 < (candidateThresholds ((List.range 51).map (fun i => (i : ℚ)))).length := by
  constructor
  · decide
  · decide

/-- C4 amended: each round's candidate thresholds for a feature are drawn
from the observed values of that feature, downsampled by stride
`max(1, len // 50)`; this caps the candidate count at 99 (reached for 99
unique values), not at 50 as claimed. -/
theorem c4_amended (vals : List ℚ) :
    (candidateThresholds vals).length ≤ 99
    ∧ ∀ t ∈ candidateThresholds vals, t ∈ vals := by
  constructor
  · unfold candidateThresholds
    by_cases h : 50 < (List.insertionSort (· ≤ ·) vals.dedup).length
    · rw [if_pos h]
      set u := List.insertionSort (· ≤ ·) vals.dedup with hu
      set L := u.length with hL
      set s := max 1 (L / 50) with hsdef
      have hs1 : 1 ≤ s := le_max_left _ _
      have hdiv : 1 ≤ L / 50 := (Nat.one_le_div_iff (by norm_num)).mpr (by omega)
      have hseq : s = L / 50 := max_eq_right hdiv
      have hmod := Nat.div_add_mod L 50
      have hmodlt : L % 50 < 50 := Nat.mod_lt _ (by norm_num)
      have hb := everyNth_mul_length_le s hs1 u
      by_contra hlen
      push_neg at hlen
      have h100 : s * 100 ≤ s * (everyNth s u).length :=
        Nat.mul_le_mul_left s (by omega)
      have hchain : s * 100 ≤ L + (s - 1) := le_trans h100 hb
      omega
    · rw [if_neg h]
      omega
  · intro t ht
    unfold candidateThresholds at ht
    have hmem : t ∈ List.insertionSort (· ≤ ·) vals.dedup := by
      by_cases h : 50 < (List.insertionSort (· ≤ ·) vals.dedup).length
      · rw [if_pos h] at ht
        exact everyNth_subset _ _ t ht
      · rwa [if_neg h] at ht
    exact List.dedup_subset vals ((List.mem_insertionSort _).mp hmem)

/-- C4 amended witness: a one-element value list — the candidate set is the
single observed value, within the 99 bound. -/
theorem c4_amended_witness :
    (candidateThresholds [(2 : ℚ)]).length ≤ 99 ∧ (2 : ℚ) ∈ [(2 : ℚ)] :=
  ⟨(c4_amended [(2 : ℚ)]).1, (c4_amended [(2 : ℚ)]).2 2 (by decide)⟩

/-- A stump record lacking a required key never parses. -/
theorem stumpIncomplete_error (df : Json) (h : stumpIncomplete df = true) :
    exceptOk (stumpFromDict df) = false := by
  cases df with
  | obj f =>
    simp only [stumpIncomplete, Bool.or_eq_true] at h
    unfold stumpFromDict
    dsimp only
    cases h1 : lookupField f "feature_idx" with
    | none => rfl
    | some fij =>
      dsimp only
      cases hn : getNat? fij with
      | none => rfl
      | some fi =>
        dsimp only
        cases h2 : lookupField f "threshold" with
        | none => rfl
        | some tj =>
          dsimp only
          cases ht : getNum? tj with
          | none => rfl
          | some thr =>
            dsimp only
            cases h3 : lookupField f "polarity" with
            | none => rfl
            | some pj => simp [h1, h2, h3] at h
  | null => rfl
  | bool b => rfl
  | num q => rfl
  | str s => rfl
  | arr l => rfl

/-- A stump list containing an incomplete record never parses. -/
theorem readStumps_error_of_incomplete :
    ∀ d : List Json, (∃ df ∈ d, stumpIncomplete df = true) →
      exceptOk (readStumps d) = false := by
  intro d
  induction d with
  | nil => rintro ⟨df, hmem, _⟩; simp at hmem
  | cons j rest ih =>
    rintro ⟨df, hmem, hinc⟩
    unfold readStumps
    cases hsd : stumpFromDict j with
    | error e => rfl
    | ok s =>
      rcases List.mem_cons.mp hmem with rfl | hmem2
      · have := stumpIncomplete_error df hinc
        rw [hsd] at this
        simp [exceptOk] at this
      · cases hr : readStumps rest with
        | error e => rfl
        | ok ss =>
          have := ih ⟨df, hmem2, hinc⟩
          rw [hr] at this
          simp [exceptOk] at this

/-- A parsed stump list has one stump per record — nothing is skipped. -/
theorem readStumps_length :
    ∀ (d : List Json) (ss : List Stump), readStumps d = Except.ok ss →
      ss.length = d.length := by
  intro d
  induction d with
  | nil =>
    intro ss h
    simp only [readStumps] at h
    cases h
    rfl
  | cons j rest ih =>
    intro ss h
    unfold readStumps at h
    cases hsd : stumpFromDict j with
    | error e => rw [hsd] at h; cases h
    | ok s =>
      rw [hsd] at h
      cases hr : readStumps rest with
      | error e => rw [hr] at h; cases h
      | ok ss2 =>
        rw [hr] at h
        cases h
        simp [ih ss2 hr]

/-- C9 counterexample: a boosted-variant record with the stump list
entirely absent is NOT a deserialization error — `from_json` silently
defaults it to the empty ensemble and returns a model. -/
theorem c9_counterexample :
    lookupField [] "stumps" = none
    ∧ adaFromJson (Json.obj []) = Except.ok ⟨50, []⟩ :=
  ⟨rfl, rfl⟩

/-- C9 amended: deserialization is a surfaced error for a record that is
not an object, for a linear record missing `weights` or `bias`, and for a
boosted record whose stump list contains an entry missing `feature_idx`,
`threshold` or `polarity`; a successfully parsed boosted model contains
every listed stump (no partial recovery). However the stump list itself is
optional and defaults to empty (as do `lr`, `l2`, `n_rounds`, `alpha`). -/
theorem c9_amended :
    (∀ fields : List (String × Json), lookupField fields "weights" = none →
      exceptOk (logFromJson (Json.obj fields)) = false)
    ∧ (∀ fields : List (String × Json), lookupField fields "bias" = none →
      exceptOk (logFromJson (Json.obj fields)) = false)
    ∧ (∀ j : Json, isObj j = false →
      exceptOk (logFromJson j) = false ∧ exceptOk (adaFromJson j) = false)
    ∧ (∀ (fields : List (String × Json)) (d : List Json),
      lookupField fields "stumps" = some (Json.arr d) →
      (∃ df ∈ d, stumpIncomplete df = true) →
      exceptOk (adaFromJson (Json.obj fields)) = false)
    ∧ (∀ (fields : List (String × Json)) (a : AdaModel) (d : List Json),
      adaFromJson (Json.obj fields) = Except.ok a →
      lookupField fields "stumps" = some (Json.arr d) →
      a.stumps.length = d.length) := by
  refine ⟨?_, ?_, ?_, ?_, ?_⟩
  · intro fields h
    unfold logFromJson
    dsimp only
    rw [h]
    rfl
  · intro fields h
    unfold logFromJson
    dsimp only
    cases hw : lookupField fields "weights" with
    | none => rfl
    | some wj =>
      dsimp only
      cases hn : getNums? wj with
      | none => rfl
      | some ws =>
        dsimp only
        rw [h]
        rfl
  · intro j h
    cases j with
    | obj f => simp [isObj] at h
    | null => exact ⟨rfl, rfl⟩
    | bool b => exact ⟨rfl, rfl⟩
    | num q => exact ⟨rfl, rfl⟩
    | str s => exact ⟨rfl, rfl⟩
    | arr l => exact ⟨rfl, rfl⟩
  · intro fields d hst hinc
    have herr := readStumps_error_of_incomplete d hinc
    unfold adaFromJson
    dsimp only
    cases hnr : lookupField fields "n_rounds" with
    | none =>
      dsimp only
      rw [hst]
      dsimp only
      cases hrs : readStumps d with
      | error e => rfl
      | ok ss => rw [hrs] at herr; simp [exceptOk] at herr
    | some nj =>
      dsimp only
      cases hgn : getNat? nj with
      | none => rfl
      | some nr =>
        dsimp only
        rw [hst]
        dsimp only
        cases hrs : readStumps d with
        | error e => rfl
        | ok ss => rw [hrs] at herr; simp [exceptOk] at herr
  · intro fields a d hok hst
    unfold adaFromJson at hok
    dsimp only at hok
    cases hnr : lookupField fields "n_rounds" with
    | none =>
      rw [hnr] at hok
      dsimp only at hok
      rw [hst] at hok
      dsimp only at hok
      cases hrs : readStumps d with
      | error e => rw [hrs] at hok; cases hok
      | ok ss =>
        rw [hrs] at hok
        cases hok
        simpa using readStumps_length d ss hrs
    | some nj =>
      rw [hnr] at hok
      dsimp only at hok
      cases hgn : getNat? nj with
      | none => rw [hgn] at hok; cases hok
      | some nr =>
        rw [hgn] at hok
        dsimp only at hok
        rw [hst] at hok
        dsimp only at hok
        cases hrs : readStumps d with
        | error e => rw [hrs] at hok; cases hok
        | ok ss =>
          rw [hrs] at hok
          cases hok
          simpa using readStumps_length d ss hrs

/-- C9 amended witness: an empty linear record errors (missing weights); a
boosted record with an empty stump object errors; a boosted record with one
complete stump parses to a one-stump model. -/
theorem c9_amended_witness :
    exceptOk (logFromJson (Json.obj [])) = false
    ∧ exceptOk (adaFromJson (Json.obj [("stumps", Json.arr [Json.obj []])])) = false
    ∧ (AdaModel.mk 50 [⟨0, 1, 1, 0⟩]).stumps.length
        = [Json.obj [("feature_idx", Json.num 0), ("threshold", Json.num 1),
            ("polarity", Json.num 1)]].length := by
  refine ⟨c9_amended.1 [] rfl, ?_, ?_⟩
  · exact c9_amended.2.2.2.1 [("stumps", Json.arr [Json.obj []])] [Json.obj []] rfl
      ⟨Json.obj [], List.mem_singleton.mpr rfl, rfl⟩
  · exact c9_amended.2.2.2.2
      [("stumps", Json.arr [Json.obj [("feature_idx", Json.num 0),
        ("threshold", Json.num 1), ("polarity", Json.num 1)]])]
      ⟨50, [⟨0, 1, 1, 0⟩]⟩
      [Json.obj [("feature_idx", Json.num 0), ("threshold", Json.num 1),
        ("polarity", Json.num 1)]]
      (by rfl) rfl

/-- Dividing every element of a list divides its sum. -/
theorem sum_map_div (l : List ℚ) (z : ℚ) : (l.map (· / z)).sum = l.sum / z := by
  induction l with
  | nil => simp
  | cons a l ih => simp [ih, add_div]

/-- Properties of one AdaBoost reweighting: starting from positive weights
(one per example), the `exp`-reweighted and renormalized vector is again
positive, one per example, and sums to exactly 1. -/
theorem weights_update_props (prim : Prims) (hexp : ∀ q : ℚ, 0 < prim.exp q)
    (X : List (List ℚ)) (hX : X ≠ []) (y2 : List ℤ) (w : List ℚ)
    (hlen : w.length = X.length) (hpos : ∀ wi ∈ w, 0 < wi) (α : ℚ) (stump : Stump) :
    (if 0 < ((List.range X.length).map (fun i =>
        w.getD i 0 * prim.exp (-α * ((y2.getD i 1 : ℤ) : ℚ)
          * ((stumpPredict stump (X.getD i []) : ℤ) : ℚ)))).sum
     then ((List.range X.length).map (fun i =>
        w.getD i 0 * prim.exp (-α * ((y2.getD i 1 : ℤ) : ℚ)
          * ((stumpPredict stump (X.getD i []) : ℤ) : ℚ)))).map
          (· / ((List.range X.length).map (fun i =>
            w.getD i 0 * prim.exp (-α * ((y2.getD i 1 : ℤ) : ℚ)
              * ((stumpPredict stump (X.getD i []) : ℤ) : ℚ)))).sum)
     else ((List.range X.length).map (fun i =>
        w.getD i 0 * prim.exp (-α * ((y2.getD i 1 : ℤ) : ℚ)
          * ((stumpPredict stump (X.getD i []) : ℤ) : ℚ))))).sum = 1
    ∧ (∀ wi ∈ (if 0 < ((List.range X.length).map (fun i =>
        w.getD i 0 * prim.exp (-α * ((y2.getD i 1 : ℤ) : ℚ)
          * ((stumpPredict stump (X.getD i []) : ℤ) : ℚ)))).sum
       then ((List.range X.length).map (fun i =>
          w.getD i 0 * prim.exp (-α * ((y2.getD i 1 : ℤ) : ℚ)
            * ((stumpPredict stump (X.getD i []) : ℤ) : ℚ)))).map
            (· / ((List.range X.length).map (fun i =>
              w.getD i 0 * prim.exp (-α * ((y2.getD i 1 : ℤ) : ℚ)
                * ((stumpPredict stump (X.getD i []) : ℤ) : ℚ)))).sum)
       else ((List.range X.length).map (fun i =>
          w.getD i 0 * prim.exp (-α * ((y2.getD i 1 : ℤ) : ℚ)
            * ((stumpPredict stump (X.getD i []) : ℤ) : ℚ))))), 0 < wi)
    ∧ (if 0 < ((List.range X.length).map (fun i =>
        w.getD i 0 * prim.exp (-α * ((y2.getD i 1 : ℤ) : ℚ)
          * ((stumpPredict stump (X.getD i []) : ℤ) : ℚ)))).sum
       then ((List.range X.length).map (fun i =>
          w.getD i 0 * prim.exp (-α * ((y2.getD i 1 : ℤ) : ℚ)
            * ((stumpPredict stump (X.getD i []) : ℤ) : ℚ)))).map
            (· / ((List.range X.length).map (fun i =>
              w.getD i 0 * prim.exp (-α * ((y2.getD i 1 : ℤ) : ℚ)
                * ((stumpPredict stump (X.getD i []) : ℤ) : ℚ)))).sum)
       else ((List.range X.length).map (fun i =>
          w.getD i 0 * prim.exp (-α * ((y2.getD i 1 : ℤ) : ℚ)
            * ((stumpPredict stump (X.getD i []) : ℤ) : ℚ))))).length = X.length := by
  set w1 := (List.range X.length).map (fun i =>
    w.getD i 0 * prim.exp (-α * ((y2.getD i 1 : ℤ) : ℚ)
      * ((stumpPredict stump (X.getD i []) : ℤ) : ℚ))) with hw1
  have hw1pos : ∀ wi ∈ w1, 0 < wi := by
    intro wi hwi
    rw [hw1] at hwi
    rcases List.mem_map.mp hwi with ⟨i, hi, rfl⟩
    have hilt : i < w.length := by
      rw [hlen]; exact List.mem_range.mp hi
    have hget : w.getD i 0 = w[i] := List.getD_eq_getElem w 0 hilt
    have : 0 < w.getD i 0 := by
      rw [hget]; exact hpos _ (List.getElem_mem hilt)
    exact mul_pos this (hexp _)
  have hw1len : w1.length = X.length := by simp [hw1]
  have hw1ne : w1 ≠ [] := by
    have h0 : 0 < X.length := List.length_pos.mpr hX
    intro hnil
    rw [hnil] at hw1len
    simp at hw1len
    omega
  have hZ : 0 < w1.sum := List.sum_pos _ hw1pos hw1ne
  refine ⟨?_, ?_, ?_⟩
  · rw [if_pos hZ, sum_map_div, div_self (ne_of_gt hZ)]
  · rw [if_pos hZ]
    intro wi hwi
    rcases List.mem_map.mp hwi with ⟨a, ha, rfl⟩
    exact div_pos (hw1pos a ha) hZ
  · rw [if_pos hZ]
    simp [hw1len]

/-- The AdaBoost round loop preserves: the weight vector has one entry per
example, sums to 1, and every entry is positive. -/
theorem adaRounds_invariant (prim : Prims) (X : List (List ℚ)) (y2 : List ℤ)
    (hX : X ≠ []) (hexp : ∀ q : ℚ, 0 < prim.exp q) :
    ∀ (k : ℕ) (w : List ℚ) (ss : List Stump),
      w.length = X.length → w.sum = 1 → (∀ wi ∈ w, 0 < wi) →
      (adaRounds prim X y2 k (w, ss)).1.sum = 1
        ∧ (∀ wi ∈ (adaRounds prim X y2 k (w, ss)).1, 0 < wi) := by
  intro k
  induction k with
  | zero => intro w ss _ h2 h3; exact ⟨h2, h3⟩
  | succ k ih =>
    intro w ss hlen hsum hpos
    cases hfb : findBestStump X y2 w with
    | none =>
      simp only [adaRounds, hfb]
      exact ⟨hsum, hpos⟩
    | some be =>
      simp only [adaRounds, hfb]
      have hprops := weights_update_props prim hexp X hX y2 w hlen hpos
        ((1 / 2 : ℚ) * prim.log ((1 - clampErr be.2) / clampErr be.2))
        { be.1 with alpha := (1 / 2 : ℚ) * prim.log ((1 - clampErr be.2) / clampErr be.2) }
      exact ih _ _ hprops.2.2 hprops.1 hprops.2.1

/-- C6: after every AdaBoost round, the clamped weighted error lies in
`[1e-9, 0.499999]`, so the argument of the logarithm defining alpha is a
positive (finite) ratio; and whenever the dataset is non-empty the
per-example weight vector sums to exactly 1 after renormalization (and
stays positive), for any number of completed rounds. -/
theorem c6_adaboost_invariants (prim : Prims) (X : List (List ℚ)) (y : List ℕ)
    (k : ℕ) (hX : X ≠ []) (hexp : ∀ q : ℚ, 0 < prim.exp q) :
    ((adaRounds prim X (y.map fun v => if v = 1 then 1 else -1) k
        (List.replicate X.length (1 / (X.length : ℚ)), [])).1.sum = 1
      ∧ ∀ wi ∈ (adaRounds prim X (y.map fun v => if v = 1 then 1 else -1) k
        (List.replicate X.length (1 / (X.length : ℚ)), [])).1, 0 < wi)
    ∧ (∀ e : ℚ, 1 / 1000000000 ≤ clampErr e ∧ clampErr e ≤ 499999 / 1000000
        ∧ 0 < (1 - clampErr e) / clampErr e) := by
  have hn : 0 < X.length := List.length_pos.mpr hX
  have hnq : (0 : ℚ) < (X.length : ℚ) := by exact_mod_cast hn
  constructor
  · refine adaRounds_invariant prim X _ hX hexp k _ [] ?_ ?_ ?_
    · simp
    · rw [List.sum_replicate]
      rw [nsmul_eq_mul]
      field_simp
    · intro wi hwi
      have := List.eq_of_mem_replicate hwi
      rw [this]
      positivity
  · intro e
    have hlow : (1 / 1000000000 : ℚ) ≤ clampErr e := le_max_left _ _
    have hhigh : clampErr e ≤ 499999 / 1000000 := by
      apply max_le
      · norm_num
      · exact min_le_left _ _
    refine ⟨hlow, hhigh, ?_⟩
    apply div_pos
    · have : clampErr e < 1 := lt_of_le_of_lt hhigh (by norm_num)
      linarith
    · exact lt_of_lt_of_le (by norm_num) hlow

/-- C6 witness: one round on the two-example dataset `[[1],[2]]` with labels
`[0,1]` and a positive `exp` primitive leaves a weight vector summing to 1;
the clamp bounds evaluated at error 0.7. -/
theorem c6_adaboost_invariants_witness :
    ((adaRounds primPos ([[1], [2]] : List (List ℚ))
        (([0, 1] : List ℕ).map fun v => if v = 1 then 1 else -1) 1
        (List.replicate ([[1], [2]] : List (List ℚ)).length
          (1 / ((([[1], [2]] : List (List ℚ)).length : ℕ) : ℚ)), [])).1.sum = 1)
    ∧ (1 / 1000000000 ≤ clampErr (7 / 10) ∧ clampErr (7 / 10) ≤ 499999 / 1000000
        ∧ 0 < (1 - clampErr (7 / 10)) / clampErr (7 / 10)) := by
  have h := c6_adaboost_invariants primPos ([[1], [2]] : List (List ℚ))
    ([0, 1] : List ℕ) 1 (by simp) (fun q => by norm_num [primPos])
  exact ⟨h.1.1, h.2 (7 / 10)⟩

/-- RSI lies in [0, 100] on every input: the short-history branch returns
50, the zero-loss branch returns 100, and otherwise `100 - 100/(1+RS)` with
`RS ≥ 0`. -/
theorem rsi_bounds (values : List ℚ) (period : ℕ) :
    0 ≤ rsi values period ∧ rsi values period ≤ 100 := by
  simp only [rsi]
  split_ifs with h1 h2
  · norm_num
  · norm_num
  · set changes := diffs (lastN (period + 1) values) with hch
    have hg : 0 ≤ (changes.map fun c => if 0 < c then c else 0).sum := by
      apply List.sum_nonneg
      intro x hx
      rcases List.mem_map.mp hx with ⟨c, _, rfl⟩
      split_ifs with h
      · exact le_of_lt h
      · exact le_refl 0
    have hl0 : 0 ≤ (changes.map fun c => if 0 < c then 0 else -c).sum := by
      apply List.sum_nonneg
      intro x hx
      rcases List.mem_map.mp hx with ⟨c, _, rfl⟩
      split_ifs with h
      · exact le_refl 0
      · exact neg_nonneg.mpr (le_of_not_lt h)
    have hrs : 0 ≤ ((changes.map fun c => if 0 < c then c else 0).sum / (period : ℚ))
        / ((changes.map fun c => if 0 < c then 0 else -c).sum / (period : ℚ)) :=
      div_nonneg (div_nonneg hg (by positivity)) (div_nonneg hl0 (by positivity))
    constructor
    · have hd : 100 / (1 + ((changes.map fun c => if 0 < c then c else 0).sum / (period : ℚ))
          / ((changes.map fun c => if 0 < c then 0 else -c).sum / (period : ℚ))) ≤ 100 :=
        div_le_self (by norm_num) (by linarith)
      linarith
    · have hd : 0 ≤ 100 / (1 + ((changes.map fun c => if 0 < c then c else 0).sum / (period : ℚ))
          / ((changes.map fun c => if 0 < c then 0 else -c).sum / (period : ℚ))) :=
        div_nonneg (by norm_num) (by linarith)
      linarith

/-- The coefficient-of-variation volatility is non-negative on positive
values, given that the sqrt primitive is non-negative on non-negatives. -/
theorem volatility_nonneg (prim : Prims) (values : List ℚ) (period : ℕ)
    (hsq : ∀ q : ℚ, 0 ≤ q → 0 ≤ prim.sqrt q) (hpos : ∀ x ∈ values, 0 < x) :
    0 ≤ volatility prim values period := by
  simp only [volatility]
  set p := if values.length < period then values.length else period with hp
  have hple : p ≤ values.length := by
    rw [hp]; split_ifs with h <;> omega
  split_ifs with h1 h2
  · exact le_refl 0
  · exact le_refl 0
  · set w := lastN p values with hw
    have hwsub : ∀ x ∈ w, x ∈ values := by
      rw [hw]; exact fun x hx => List.drop_subset _ _ hx
    have hwlen : w.length = p := by
      rw [hw]; unfold lastN; rw [List.length_drop]; omega
    have hwne : w ≠ [] := by
      intro hnil
      rw [hnil] at hwlen
      simp at hwlen
      omega
    have hsumpos : 0 < w.sum := List.sum_pos w (fun x hx => hpos x (hwsub x hx)) hwne
    have hpq : (0 : ℚ) < (p : ℚ) := by
      have : 0 < p := by omega
      exact_mod_cast this
    have hmean : 0 < w.sum / (p : ℚ) := div_pos hsumpos hpq
    apply div_nonneg
    · apply hsq
      apply div_nonneg
      · apply List.sum_nonneg
        intro x hx
        rcases List.mem_map.mp hx with ⟨v, _, rfl⟩
        positivity
      · positivity
    · exact le_of_lt hmean

/-- The range-position value `(x - lo)/(hi - lo)` (with the degenerate
`hi = lo` guard) lies in [0, 1] whenever `lo ≤ x ≤ hi`. -/
theorem range_pos_bounds (hi lo x : ℚ) (h1 : lo ≤ x) (h2 : x ≤ hi) :
    0 ≤ (if hi = lo then (1 : ℚ) / 2 else (x - lo) / (hi - lo))
    ∧ (if hi = lo then (1 : ℚ) / 2 else (x - lo) / (hi - lo)) ≤ 1 := by
  split_ifs with h
  · constructor <;> norm_num
  · have hlt : lo < hi := lt_of_le_of_ne (le_trans h1 h2) (Ne.symm h)
    constructor
    · exact div_nonneg (by linarith) (by linarith)
    · rw [div_le_one (by linarith)]
      linarith

/-- The last element (with default) of a non-empty list is a member. -/
theorem lastD_mem (l : List ℚ) (h : l ≠ []) : lastD l ∈ l := by
  induction l with
  | nil => exact absurd rfl h
  | cons a t ih =>
    cases t with
    | nil => simp [lastD]
    | cons b t2 =>
      have hstep : lastD (a :: b :: t2) = lastD (b :: t2) := by
        simp [lastD]
      rw [hstep]
      exact List.mem_cons_of_mem a (ih (by simp))

/-- The fold seed is a lower bound of a max-fold. -/
theorem le_foldl_max (t : List ℚ) : ∀ a : ℚ, a ≤ t.foldl max a := by
  induction t with
  | nil => intro a; simp
  | cons b t ih => intro a; exact le_trans (le_max_left a b) (ih (max a b))

/-- Every member is a lower bound of a max-fold. -/
theorem mem_le_foldl_max (t : List ℚ) : ∀ (a x : ℚ), x ∈ t → x ≤ t.foldl max a := by
  induction t with
  | nil => intro a x hx; simp at hx
  | cons b t ih =>
    intro a x hx
    rcases List.mem_cons.mp hx with rfl | hx2
    · exact le_trans (le_max_right a x) (le_foldl_max t (max a x))
    · exact ih (max a b) x hx2

/-- Python `max(l)` dominates every member. -/
theorem listMax_ge (l : List ℚ) (x : ℚ) (hx : x ∈ l) : x ≤ listMax l := by
  cases l with
  | nil => simp at hx
  | cons a t =>
    show x ≤ t.foldl max a
    rcases List.mem_cons.mp hx with rfl | h
    · exact le_foldl_max t x
    · exact mem_le_foldl_max t a x h

/-- The fold seed is an upper bound of a min-fold. -/
theorem foldl_min_le (t : List ℚ) : ∀ a : ℚ, t.foldl min a ≤ a := by
  induction t with
  | nil => intro a; simp
  | cons b t ih => intro a; exact le_trans (ih (min a b)) (min_le_left a b)

/-- Every member is an upper bound of a min-fold. -/
theorem foldl_min_le_mem (t : List ℚ) : ∀ (a x : ℚ), x ∈ t → t.foldl min a ≤ x := by
  induction t with
  | nil => intro a x hx; simp at hx
  | cons b t ih =>
    intro a x hx
    rcases List.mem_cons.mp hx with rfl | hx2
    · exact le_trans (foldl_min_le t (min a x)) (min_le_right a x)
    · exact ih (min a b) x hx2

/-- Python `min(l)` is below every member. -/
theorem listMin_le (l : List ℚ) (x : ℚ) (hx : x ∈ l) : listMin l ≤ x := by
  cases l with
  | nil => simp at hx
  | cons a t =>
    show t.foldl min a ≤ x
    rcases List.mem_cons.mp hx with rfl | h
    · exact foldl_min_le t x
    · exact foldl_min_le_mem t a x h

/-- `pySliceLast` keeps only elements of the original list. -/
theorem pySliceLast_subset {α : Type} (n : ℕ) (l : List α) :
    ∀ x ∈ pySliceLast n l, x ∈ l := by
  intro x hx
  unfold pySliceLast at hx
  split_ifs at hx with h
  · exact hx
  · exact List.drop_subset _ _ hx

/-- `pySliceLast` commutes with `map`. -/
theorem pySliceLast_map {α β : Type} (f : α → β) (n : ℕ) (l : List α) :
    pySliceLast n (l.map f) = (pySliceLast n l).map f := by
  unfold pySliceLast lastN
  split_ifs with h
  · rfl
  · simp [List.length_map, List.map_drop]

/-- `pySliceLast` of a non-empty list is non-empty. -/
theorem pySliceLast_ne_nil {α : Type} (n : ℕ) (l : List α) (h : l ≠ []) :
    pySliceLast n l ≠ [] := by
  unfold pySliceLast
  split_ifs with h0
  · exact h
  · unfold lastN
    intro hnil
    have hlen := congrArg List.length hnil
    rw [List.length_drop] at hlen
    simp at hlen
    have hlp : 0 < l.length := List.length_pos.mpr h
    omega

/-- In a valid candle window (low ≤ close ≤ high per candle), the last close
lies between the window minimum of lows and the window maximum of highs. -/
theorem last_close_in_range (candles : List Candle) (w : ℕ) (hne : candles ≠ [])
    (hvalid : ∀ c ∈ candles, c.low ≤ c.close ∧ c.close ≤ c.high) :
    listMin (pySliceLast w (candles.map (fun c => c.low)))
      ≤ lastD (pySliceLast w (candles.map (fun c => c.close)))
    ∧ lastD (pySliceLast w (candles.map (fun c => c.close)))
      ≤ listMax (pySliceLast w (candles.map (fun c => c.high))) := by
  rw [pySliceLast_map, pySliceLast_map, pySliceLast_map]
  set rc := pySliceLast w candles with hrc
  have hrcne : rc ≠ [] := pySliceLast_ne_nil w candles hne
  have hmapne : rc.map (fun c => c.close) ≠ [] := by
    intro h
    exact hrcne (List.map_eq_nil_iff.mp h)
  have hmem := lastD_mem _ hmapne
  rcases List.mem_map.mp hmem with ⟨cl, hclmem, hcleq⟩
  have hv := hvalid cl (pySliceLast_subset w candles cl hclmem)
  constructor
  · rw [← hcleq]
    exact le_trans (listMin_le _ _ (List.mem_map_of_mem _ hclmem)) hv.1
  · rw [← hcleq]
    exact le_trans hv.2 (listMax_ge _ _ (List.mem_map_of_mem _ hclmem))

/-- C8 counterexample: a candle list with all fields positive and volume
non-negative but `close > high` (which positivity alone allows) makes the
range-position feature `(10-1)/(5-1) = 9/4 > 1`. -/
theorem c8_counterexample :
    (0 < (Candle.mk 0 1 5 1 10 1).open_ ∧ 0 < (Candle.mk 0 1 5 1 10 1).high
      ∧ 0 < (Candle.mk 0 1 5 1 10 1).low ∧ 0 < (Candle.mk 0 1 5 1 10 1).close
      ∧ 0 ≤ (Candle.mk 0 1 5 1 10 1).volume)
    ∧ 1 < (compute_feature_vector primId [Candle.mk 0 1 5 1 10 1] 1).1.getD 7 0 := by
  constructor
  · exact ⟨by norm_num, by norm_num, by norm_num, by norm_num, by norm_num⟩
  · norm_num [compute_feature_vector, sma, ema, rsi, volatility, pySliceLast, lastN,
      lastD, listMax, listMin, fromEnd, diffs, primId]

/-- C8 amended: on a non-empty candle list whose candles are OHLC-valid
(low ≤ close ≤ high) with positive closes, and a sqrt primitive that is
non-negative on non-negatives, the RSI feature (index 5) lies in [0,100],
the range-position feature (index 7) lies in [0,1], and the volatility
feature (index 6) is ≥ 0. (RSI needs no hypotheses at all.) -/
theorem c8_amended (prim : Prims) (candles : List Candle) (W : ℕ)
    (hne : candles ≠ []) (hpos : ∀ c ∈ candles, 0 < c.close)
    (hvalid : ∀ c ∈ candles, c.low ≤ c.close ∧ c.close ≤ c.high)
    (hsq : ∀ q : ℚ, 0 ≤ q → 0 ≤ prim.sqrt q) :
    (0 ≤ (compute_feature_vector prim candles W).1.getD 5 0
      ∧ (compute_feature_vector prim candles W).1.getD 5 0 ≤ 100)
    ∧ (0 ≤ (compute_feature_vector prim candles W).1.getD 7 0
      ∧ (compute_feature_vector prim candles W).1.getD 7 0 ≤ 1)
    ∧ 0 ≤ (compute_feature_vector prim candles W).1.getD 6 0 := by
  refine ⟨rsi_bounds _ _, ?_, ?_⟩
  · refine range_pos_bounds _ _ _ ?_ ?_
    · exact (last_close_in_range candles _ hne hvalid).1
    · exact (last_close_in_range candles _ hne hvalid).2
  · refine volatility_nonneg prim _ _ hsq ?_
    intro x hx
    have hx2 := pySliceLast_subset _ _ x hx
    rcases List.mem_map.mp hx2 with ⟨c, hc, rfl⟩
    exact hpos c hc

/-- C8 amended witness: a single valid flat candle — RSI 50, range position
1/2, volatility 0, all within bounds. -/
theorem c8_amended_witness :
    (0 ≤ (compute_feature_vector primId [Candle.mk 0 2 2 2 2 1] 1).1.getD 5 0
      ∧ (compute_feature_vector primId [Candle.mk 0 2 2 2 2 1] 1).1.getD 5 0 ≤ 100)
    ∧ (0 ≤ (compute_feature_vector primId [Candle.mk 0 2 2 2 2 1] 1).1.getD 7 0
      ∧ (compute_feature_vector primId [Candle.mk 0 2 2 2 2 1] 1).1.getD 7 0 ≤ 1)
    ∧ 0 ≤ (compute_feature_vector primId [Candle.mk 0 2 2 2 2 1] 1).1.getD 6 0 :=
  c8_amended primId [Candle.mk 0 2 2 2 2 1] 1 (by simp)
    (by intro c hc; simp at hc; rw [hc]; norm_num)
    (by intro c hc; simp at hc; rw [hc]; constructor <;> norm_num)
    (by intro q hq; simpa [primId] using hq)

/-- Splitting the grid-search fold: the accumulated result list is the map
of the record constructor over the pairs, and `best` is an independent fold
over that record list. -/
theorem grid_foldl_split (mk : ℚ × ℚ → GridRec) (pairs : List (ℚ × ℚ)) :
    ∀ (b0 : Option GridRec) (r0 : List GridRec),
    pairs.foldl (fun acc pr =>
      (match acc.1 with
       | none => some (mk pr)
       | some b => if b.metrics.sharpe_like < (mk pr).metrics.sharpe_like
                   then some (mk pr) else some b,
       acc.2 ++ [mk pr])) (b0, r0)
    = ((pairs.map mk).foldl (fun acc r =>
        match acc with
        | none => some r
        | some b => if b.metrics.sharpe_like < r.metrics.sharpe_like
                    then some r else some b) b0,
       r0 ++ pairs.map mk) := by
  induction pairs with
  | nil => intro b0 r0; simp
  | cons p t ih =>
    intro b0 r0
    simp only [List.foldl_cons, List.map_cons]
    rw [ih]
    simp

/-- The running-best fold selects the first record attaining the maximal
Sharpe-like score: the result dominates every record, and `find?` for
"score at least the best's" hits exactly it. -/
theorem pickBest_spec (l : List GridRec) :
    ∀ a : GridRec,
    ∃ b, l.foldl (fun acc r =>
        match acc with
        | none => some r
        | some b => if b.metrics.sharpe_like < r.metrics.sharpe_like
                    then some r else some b) (some a) = some b
    ∧ (∀ r ∈ a :: l, r.metrics.sharpe_like ≤ b.metrics.sharpe_like)
    ∧ (a :: l).find?
        (fun r => decide (b.metrics.sharpe_like ≤ r.metrics.sharpe_like)) = some b := by
  induction l with
  | nil =>
    intro a
    refine ⟨a, rfl, ?_, ?_⟩
    · intro r hr
      rcases List.mem_cons.mp hr with rfl | h
      · exact le_refl _
      · simp at h
    · simp [List.find?]
  | cons r t ih =>
    intro a
    by_cases hc : a.metrics.sharpe_like < r.metrics.sharpe_like
    · obtain ⟨b, hfold, hall, hfind⟩ := ih r
      refine ⟨b, ?_, ?_, ?_⟩
      · simp only [List.foldl_cons]
        rw [if_pos hc]
        exact hfold
      · intro x hx
        rcases List.mem_cons.mp hx with rfl | hx2
        · have hr2 := hall r (List.mem_cons_self r t)
          linarith
        · exact hall x hx2
      · have hr2 := hall r (List.mem_cons_self r t)
        have hfa : (decide (b.metrics.sharpe_like ≤ a.metrics.sharpe_like)) = false := by
          simp only [decide_eq_false_iff_not]
          intro hba
          linarith
        rw [List.find?_cons, hfa]
        exact hfind
    · obtain ⟨b, hfold, hall, hfind⟩ := ih a
      refine ⟨b, ?_, ?_, ?_⟩
      · simp only [List.foldl_cons]
        rw [if_neg hc]
        exact hfold
      · intro x hx
        rcases List.mem_cons.mp hx with rfl | hx2
        · exact hall x (List.mem_cons_self x t)
        · rcases List.mem_cons.mp hx2 with rfl | hx3
          · have ha := hall a (List.mem_cons_self a t)
            have hra : x.metrics.sharpe_like ≤ a.metrics.sharpe_like := le_of_not_lt hc
            linarith
          · exact hall x (List.mem_cons_of_mem a hx3)
      · cases hpa : decide (b.metrics.sharpe_like ≤ a.metrics.sharpe_like) with
        | true =>
          have hfa : (a :: t).find?
              (fun r => decide (b.metrics.sharpe_like ≤ r.metrics.sharpe_like)) = some a := by
            rw [List.find?_cons, hpa]
          rw [hfa] at hfind
          rw [List.find?_cons, hpa]
          exact hfind
        | false =>
          have hab : a.metrics.sharpe_like < b.metrics.sharpe_like := by
            have := of_decide_eq_false hpa
            exact lt_of_not_le this
          have hra : r.metrics.sharpe_like ≤ a.metrics.sharpe_like := le_of_not_lt hc
          have hpr : (decide (b.metrics.sharpe_like ≤ r.metrics.sharpe_like)) = false := by
            simp only [decide_eq_false_iff_not]
            intro hbr
            linarith
          have ht : t.find?
              (fun r => decide (b.metrics.sharpe_like ≤ r.metrics.sharpe_like)) = some b := by
            rw [List.find?_cons, hpa] at hfind
            exact hfind
          rw [List.find?_cons, hpa, List.find?_cons, hpr]
          exact ht

/-- C5: `backtest_grid`'s grid loop simulates every (threshold, risk) pair
of the two grids — thresholds outer, risks inner — records all of them, and
selects as best the first record, in iteration order, attaining the maximal
Sharpe-like score (ties keep the first found, since the comparison is a
strict `>`). -/
theorem c5_grid_search (prim : Prims) (proba closes : List ℚ) (H : ℕ)
    (sg rg : List ℚ) (lev SB : ℚ) (mode : String) (fee slip : ℚ)
    (dd : Option ℚ) (mt : Option ℕ) (hs : sg ≠ []) (hr : rg ≠ []) :
    (gridSearch prim proba closes H sg rg lev SB mode fee slip dd mt).2
      = (sg.flatMap (fun thr => rg.map (fun risk => (thr, risk)))).map
          (fun pr => (⟨pr.1, pr.2, mode, fee, slip,
            simulate prim proba closes
              ⟨H, pr.1, pr.2, lev, SB, mode, fee, slip, dd, mt⟩⟩ : GridRec))
    ∧ ∃ b, (gridSearch prim proba closes H sg rg lev SB mode fee slip dd mt).1 = some b
      ∧ (∀ r ∈ (gridSearch prim proba closes H sg rg lev SB mode fee slip dd mt).2,
          r.metrics.sharpe_like ≤ b.metrics.sharpe_like)
      ∧ (gridSearch prim proba closes H sg rg lev SB mode fee slip dd mt).2.find?
          (fun r => decide (b.metrics.sharpe_like ≤ r.metrics.sharpe_like)) = some b := by
  have hpairs : sg.flatMap (fun thr => rg.map (fun risk => (thr, risk))) ≠ [] := by
    cases sg with
    | nil => exact absurd rfl hs
    | cons t ts =>
      simp only [List.flatMap_cons]
      intro h
      rcases List.append_eq_nil.mp h with ⟨h1, _⟩
      exact hr (List.map_eq_nil_iff.mp h1)
  unfold gridSearch
  rw [grid_foldl_split (fun pr => (⟨pr.1, pr.2, mode, fee, slip,
    simulate prim proba closes ⟨H, pr.1, pr.2, lev, SB, mode, fee, slip, dd, mt⟩⟩ : GridRec))]
  constructor
  · simp
  · cases hrec : (sg.flatMap (fun thr => rg.map (fun risk => (thr, risk)))).map
        (fun pr => (⟨pr.1, pr.2, mode, fee, slip,
          simulate prim proba closes
            ⟨H, pr.1, pr.2, lev, SB, mode, fee, slip, dd, mt⟩⟩ : GridRec)) with
    | nil =>
      exact absurd (List.map_eq_nil_iff.mp hrec) hpairs
    | cons r rest =>
      obtain ⟨b, hfold, hall, hfind⟩ := pickBest_spec rest r
      refine ⟨b, ?_, ?_, ?_⟩
      · simp only [hrec, List.foldl_cons]
        exact hfold
      · intro x hx
        simp only [hrec] at hx
        simp only [List.nil_append] at hx
        exact hall x hx
      · simp only [hrec, List.nil_append]
        exact hfind

/-- C5 witness: grids `[1/2, 4/5] × [2]`, a single prediction — both pairs
are simulated, and the best is the first record attaining the maximal
score. -/
theorem c5_grid_search_witness :
    (gridSearch primId [1] [1, 1] 1 [1/2, 4/5] [2] 1 1000 "usd" 0 0 none none).2
      = (([1/2, 4/5] : List ℚ).flatMap (fun thr => ([2] : List ℚ).map (fun risk => (thr, risk)))).map
          (fun pr => (⟨pr.1, pr.2, "usd", 0, 0,
            simulate primId [1] [1, 1]
              ⟨1, pr.1, pr.2, 1, 1000, "usd", 0, 0, none, none⟩⟩ : GridRec))
    ∧ ∃ b, (gridSearch primId [1] [1, 1] 1 [1/2, 4/5] [2] 1 1000 "usd" 0 0 none none).1 = some b
      ∧ (∀ r ∈ (gridSearch primId [1] [1, 1] 1 [1/2, 4/5] [2] 1 1000 "usd" 0 0 none none).2,
          r.metrics.sharpe_like ≤ b.metrics.sharpe_like)
      ∧ (gridSearch primId [1] [1, 1] 1 [1/2, 4/5] [2] 1 1000 "usd" 0 0 none none).2.find?
          (fun r => decide (b.metrics.sharpe_like ≤ r.metrics.sharpe_like)) = some b :=
  c5_grid_search primId [1] [1, 1] 1 [1/2, 4/5] [2] 1 1000 "usd" 0 0 none none
    (by simp) (by simp)

/-- `findIdx` characterization on `getD`: if the first index satisfying `p`
is `j` (within bounds), then `p` fails before `j` and holds at `j`. -/
theorem findIdx_getD_spec {α : Type} (p : α → Bool) :
    ∀ (l : List α) (j : ℕ), l.findIdx p = j → j < l.length →
      (∀ (k : ℕ) (dflt : α), k < j → p (l.getD k dflt) = false)
      ∧ (∀ dflt : α, p (l.getD j dflt) = true) := by
  intro l
  induction l with
  | nil => intro j _ hj; simp at hj
  | cons a t ih =>
    intro j h hj
    rw [List.findIdx_cons] at h
    cases hpa : p a with
    | true =>
      rw [hpa] at h
      simp at h
      subst h
      refine ⟨?_, ?_⟩
      · intro k dflt hk; omega
      · intro dflt; simpa using hpa
    | false =>
      rw [hpa] at h
      simp at h
      cases j with
      | zero => omega
      | succ j2 =>
        have hj2 : t.findIdx p = j2 := by omega
        have hlt : j2 < t.length := by simpa using hj
        obtain ⟨hbef, hat⟩ := ih j2 hj2 hlt
        refine ⟨?_, ?_⟩
        · intro k dflt hk
          cases k with
          | zero => simpa using hpa
          | succ k2 =>
            have : (a :: t).getD (k2 + 1) dflt = t.getD k2 dflt := rfl
            rw [this]
            exact hbef k2 dflt (by omega)
        · intro dflt
          have : (a :: t).getD (j2 + 1) dflt = t.getD j2 dflt := rfl
          rw [this]
          exact hat dflt

/-- The `k`-th entry of the trade trace has executed exactly
`st.trades + k + 1` trades. -/
theorem tradeStates_trades (P : SimParams) (closes : List ℚ) :
    ∀ (preds : List ℚ) (i : ℕ) (st dflt : SimState) (k : ℕ),
      k < (tradeStates P closes preds i st).length →
      ((tradeStates P closes preds i st).getD k dflt).trades = st.trades + k + 1 := by
  intro preds
  induction preds with
  | nil => intro i st dflt k hk; simp [tradeStates] at hk
  | cons p rest ih =>
    intro i st dflt k hk
    by_cases hp : p < P.threshold
    · have htr : tradeStates P closes (p :: rest) i st
          = tradeStates P closes rest (i + 1) st := by
        simp only [tradeStates]; rw [if_pos hp]
      rw [htr] at hk ⊢
      exact ih (i + 1) st dflt k hk
    · by_cases hmt : (match P.max_trades with
          | some mt => decide (mt ≤ st.trades) | none => false) = true
      · have htr : tradeStates P closes (p :: rest) i st = [] := by
          simp only [tradeStates]; rw [if_neg hp, if_pos hmt]
        rw [htr] at hk; simp at hk
      · by_cases hhor : closes.length ≤ i + P.horizon
        · have htr : tradeStates P closes (p :: rest) i st = [] := by
            simp only [tradeStates]; rw [if_neg hp, if_neg hmt, if_pos hhor]
          rw [htr] at hk; simp at hk
        · have htr : tradeStates P closes (p :: rest) i st
              = tradeStep P closes i st ::
                tradeStates P closes rest (i + 1) (tradeStep P closes i st) := by
            simp only [tradeStates]; rw [if_neg hp, if_neg hmt, if_neg hhor]
          rw [htr] at hk ⊢
          cases k with
          | zero => rfl
          | succ k2 =>
            have hgd : (tradeStep P closes i st ::
                tradeStates P closes rest (i + 1) (tradeStep P closes i st)).getD (k2 + 1) dflt
                = (tradeStates P closes rest (i + 1) (tradeStep P closes i st)).getD k2 dflt := rfl
            rw [hgd]
            have hk2 : k2 < (tradeStates P closes rest (i + 1) (tradeStep P closes i st)).length := by
              simpa using hk
            rw [ih (i + 1) (tradeStep P closes i st) dflt k2 hk2]
            have : (tradeStep P closes i st).trades = st.trades + 1 := rfl
            rw [this]
            omega

/-- With a configured drawdown stop `s`, the simulator loop runs exactly up
to (and including) the first trade whose post-trade drawdown percent
reaches `s`, and returns that trade's state: completed trades are kept and
nothing after the breach executes. -/
theorem simLoop_dd_trunc (P : SimParams) (closes : List ℚ) (s : ℚ)
    (hdd : P.dd_stop_pct = some s) :
    ∀ (preds : List ℚ) (i : ℕ) (st dflt : SimState) (j : ℕ),
      j < (tradeStates P closes preds i st).length →
      (∀ k : ℕ, k < j → ddPct ((tradeStates P closes preds i st).getD k dflt) * 100 < s) →
      s ≤ ddPct ((tradeStates P closes preds i st).getD j dflt) * 100 →
      simLoop P closes preds i st = (tradeStates P closes preds i st).getD j dflt := by
  intro preds
  induction preds with
  | nil => intro i st dflt j hj _ _; simp [tradeStates] at hj
  | cons p rest ih =>
    intro i st dflt j hj hbef hbr
    by_cases hp : p < P.threshold
    · have htr : tradeStates P closes (p :: rest) i st
          = tradeStates P closes rest (i + 1) st := by
        simp only [tradeStates]; rw [if_pos hp]
      have hsl : simLoop P closes (p :: rest) i st
          = simLoop P closes rest (i + 1) st := by
        simp only [simLoop]; rw [if_pos hp]
      rw [htr] at hj hbef hbr
      rw [hsl, htr]
      exact ih (i + 1) st dflt j hj hbef hbr
    · by_cases hmt : (match P.max_trades with
          | some mt => decide (mt ≤ st.trades) | none => false) = true
      · have htr : tradeStates P closes (p :: rest) i st = [] := by
          simp only [tradeStates]; rw [if_neg hp, if_pos hmt]
        rw [htr] at hj; simp at hj
      · by_cases hhor : closes.length ≤ i + P.horizon
        · have htr : tradeStates P closes (p :: rest) i st = [] := by
            simp only [tradeStates]; rw [if_neg hp, if_neg hmt, if_pos hhor]
          rw [htr] at hj; simp at hj
        · have htr : tradeStates P closes (p :: rest) i st
              = tradeStep P closes i st ::
                tradeStates P closes rest (i + 1) (tradeStep P closes i st) := by
            simp only [tradeStates]; rw [if_neg hp, if_neg hmt, if_neg hhor]
          have hsl : simLoop P closes (p :: rest) i st
              = (if s ≤ ddPct (tradeStep P closes i st) * 100 then tradeStep P closes i st
                 else simLoop P closes rest (i + 1) (tradeStep P closes i st)) := by
            simp only [simLoop]; rw [if_neg hp, if_neg hmt, if_neg hhor, hdd]
          rw [htr] at hj hbef hbr
          rw [hsl, htr]
          cases j with
          | zero =>
            have hgd : (tradeStep P closes i st ::
                tradeStates P closes rest (i + 1) (tradeStep P closes i st)).getD 0 dflt
                = tradeStep P closes i st := rfl
            rw [hgd] at hbr ⊢
            rw [if_pos hbr]
          | succ j2 =>
            have h0 : ddPct (tradeStep P closes i st) * 100 < s := by
              have := hbef 0 (Nat.succ_pos j2)
              simpa using this
            rw [if_neg (not_le.mpr h0)]
            have hgd : ∀ (k : ℕ), (tradeStep P closes i st ::
                tradeStates P closes rest (i + 1) (tradeStep P closes i st)).getD (k + 1) dflt
                = (tradeStates P closes rest (i + 1) (tradeStep P closes i st)).getD k dflt :=
              fun k => rfl
            rw [hgd]
            refine ih (i + 1) (tradeStep P closes i st) dflt j2 (by simpa using hj) ?_ ?_
            · intro k hk
              have := hbef (k + 1) (Nat.succ_lt_succ hk)
              rw [hgd] at this
              exact this
            · rw [hgd] at hbr
              exact hbr

/-- C7: with a drawdown stop configured, the simulator executes no trade
after the first whose post-trade drawdown percent reaches the stop — the
run is truncated at that trade, keeping it and all earlier trades — so if
the first breach in the trade trace is at (0-based) position `j`, the trade
count is exactly `j + 1`. -/
theorem c7_dd_stop (prim : Prims) (P : SimParams) (closes preds : List ℚ)
    (s : ℚ) (j : ℕ) (hdd : P.dd_stop_pct = some s)
    (hj : j < (tradeStates P closes preds 0 (initState P.starting_balance)).length)
    (hfind : (tradeStates P closes preds 0 (initState P.starting_balance)).findIdx
        (fun c => decide (s ≤ ddPct c * 100)) = j) :
    (simulate prim preds closes P).trades = j + 1 := by
  obtain ⟨hbef, hat⟩ := findIdx_getD_spec
    (fun c => decide (s ≤ ddPct c * 100)) _ j hfind hj
  have hbef2 : ∀ k : ℕ, k < j →
      ddPct ((tradeStates P closes preds 0 (initState P.starting_balance)).getD k
        (initState P.starting_balance)) * 100 < s := by
    intro k hk
    have := hbef k (initState P.starting_balance) hk
    simp only [decide_eq_false_iff_not, not_le] at this
    exact this
  have hat2 : s ≤ ddPct ((tradeStates P closes preds 0 (initState P.starting_balance)).getD j
      (initState P.starting_balance)) * 100 := by
    have := hat (initState P.starting_balance)
    simpa using this
  have hloop := simLoop_dd_trunc P closes s hdd preds 0
    (initState P.starting_balance) (initState P.starting_balance) j hj hbef2 hat2
  have hsim : (simulate prim preds closes P).trades
      = (simLoop P closes preds 0 (initState P.starting_balance)).trades := rfl
  rw [hsim, hloop]
  have := tradeStates_trades P closes preds 0 (initState P.starting_balance)
    (initState P.starting_balance) j hj
  rw [this]
  simp [initState]

set_option maxHeartbeats 4000000 in
/-- C7 witness: a losing sequence (each trade loses 20 of a 1000 starting
balance, drawdown 2%, 4%, 6%, …) with `dd_stop_pct = 5` and five eligible
signals breaches on trade 3 — the simulator executes exactly 3 trades. -/
theorem c7_dd_stop_witness :
    (simulate primId [1, 1, 1, 1, 1]
      [100, 80, 64, 256/5, 1024/25, 4096/125]
      ⟨1, 1/2, 100, 1, 1000, "usd", 0, 0, some 5, none⟩).trades = 3 := by
  have hfind : (tradeStates ⟨1, 1/2, 100, 1, 1000, "usd", 0, 0, some 5, none⟩
      [100, 80, 64, 256/5, 1024/25, 4096/125]
      [1, 1, 1, 1, 1] 0 (initState 1000)).findIdx
      (fun c => decide ((5 : ℚ) ≤ ddPct c * 100)) = 2 := by
    norm_num [tradeStates, tradeStep, ddPct, initState, List.findIdx_cons, max_def, min_def,
      Bool.cond_eq_if, (show ("usd" : String) ≠ "pct" by decide)]
  have hlen : 2 < (tradeStates ⟨1, 1/2, 100, 1, 1000, "usd", 0, 0, some 5, none⟩
      [100, 80, 64, 256/5, 1024/25, 4096/125]
      [1, 1, 1, 1, 1] 0 (initState 1000)).length := by
    norm_num [tradeStates, tradeStep, initState, max_def, min_def,
      (show ("usd" : String) ≠ "pct" by decide)]
  exact c7_dd_stop primId ⟨1, 1/2, 100, 1, 1000, "usd", 0, 0, some 5, none⟩
    [100, 80, 64, 256/5, 1024/25, 4096/125]
    [1, 1, 1, 1, 1] 5 2 rfl hlen hfind

end BitgetAI
